import Mathlib

/-!
PreProcessTxt: the mass-window filter of ccscal.

Shallow embedding of `main` of `PreProcessTxt.cpp`. The repository holds two copies of
the program: `PreProcessTxt.main` embeds the copy at the top of the repository and
`PreProcessTxt.CcsCalInput.main` the copy under `CcsCal/input/`; the two share the model
of the standard library (strings, `std::stod`, the streams).

Modelling conventions
* a `std::string` is a Lean `String`; each `Char` of its `data` stands for one C++ `char`;
* the type `double` is modelled in two ways. `Fp.loop` and `Fp.main` are the program over
  an arbitrary floating-point environment `Fp.Env` (the values, `std::stod`, `-`, `+`,
  `>`); `binary64` is the environment of IEEE 754 binary64 with a correctly rounding
  `std::stod`. `loop` and `main` are the program over exact rational arithmetic
  (`exactEnv`: decimal literals, no rounding, no infinity, no NaN); they carry the
  statements that are about exact arithmetic or that do not depend on the arithmetic;
* the `ifstream` is the list of white-space separated tokens that `operator>>` has not
  extracted yet, together with its `failbit`;
* the `ofstream` is the list of the texts of the executed `outputFile << ...` statements;
  what reaches the file is described by `execute`;
* an exception that leaves `main` is the status `aborted`.
-/

namespace PreProcessTxt

/-! ## Strings -/

/-- Classification of `std::isspace` in the "C" locale: space, `\t`, `\n`, `\v`, `\f`, `\r`. -/
def isspace (c : Char) : Bool :=
  c == ' ' || c == '\t' || c == '\n' || c == '\x0b' || c == '\x0c' || c == '\r'

/-- Model of `std::string::substr(pos, count)`: `none` stands for `std::out_of_range`
(thrown when `pos > size()`), otherwise the characters `[pos, pos + min(count, size() - pos))`. -/
def substr (s : String) (pos count : Nat) : Option String :=
  if pos > s.length then none
  else some (String.mk ((s.data.drop pos).take (min count (s.length - pos))))

/-- Line 22: `inputFileName.substr(0, (inputFileName.length() - 4)) + ".pp-" + argv[2] + ".txt"`.
The subtraction is done in `size_t`, an unsigned type of `w` bits. -/
def outputFileName (w : Nat) (inputFileName argv2 : String) : Option String :=
  match substr inputFileName 0 ((inputFileName.length + 2 ^ w - 4) % 2 ^ w) with
  | none => none
  | some stem => some (stem ++ ".pp-" ++ argv2 ++ ".txt")

/-! ## `std::stod` -/

/-- Value of a run of decimal digits. -/
def digitsVal (ds : List Char) : Nat :=
  ds.foldl (fun n c => 10 * n + (c.toNat - '0'.toNat)) 0

/-- Exponent part of a decimal floating literal: `e` or `E`, an optional sign and at least
one digit; anything else is not part of the number and counts as exponent `0`. -/
def exponent (s : List Char) : Int :=
  match s with
  | [] => 0
  | c :: r =>
    if c == 'e' || c == 'E' then
      match r with
      | '-' :: r1 =>
        if (r1.takeWhile Char.isDigit).isEmpty then 0
        else - Int.ofNat (digitsVal (r1.takeWhile Char.isDigit))
      | '+' :: r1 => Int.ofNat (digitsVal (r1.takeWhile Char.isDigit))
      | _ => Int.ofNat (digitsVal (r.takeWhile Char.isDigit))
    else 0

/-- Scaling of a mantissa by a power of ten. -/
def scale10 (m : Nat) (e : Int) : ℚ :=
  match e with
  | Int.ofNat k => ((m * 10 ^ k : Nat) : ℚ)
  | Int.negSucc k => mkRat (Int.ofNat m) (10 ^ (k + 1))

/-- Model of `std::stod(str)` over exact arithmetic: the exact value of the longest prefix
of `str` that is a decimal floating literal, after skipping leading white space; `none`
when `str` does not start with one (`std::invalid_argument`). The value is not rounded to
a `double`, and hexadecimal literals, `inf`, `nan` and range errors are left to
`Double.stod`, the function in binary64. -/
def stod (str : String) : Option ℚ :=
  let s := str.data.dropWhile isspace
  let neg := match s with
    | '-' :: _ => true
    | _ => false
  let s := match s with
    | '-' :: r => r
    | '+' :: r => r
    | _ => s
  let ip := s.takeWhile Char.isDigit
  let s1 := s.dropWhile Char.isDigit
  let fp := match s1 with
    | '.' :: r => r.takeWhile Char.isDigit
    | _ => []
  let s2 := match s1 with
    | '.' :: r => r.dropWhile Char.isDigit
    | _ => s1
  if ip.isEmpty && fp.isEmpty then none
  else
    let v := scale10 (digitsVal (ip ++ fp)) (exponent s2 - Int.ofNat fp.length)
    some (if neg then -v else v)

/-! ## The input stream -/

/-- Tokens that `operator>>` extracts from a text: maximal runs of non-white-space
characters. `cur` holds the characters of the token being read, last one first. -/
def tokensAux : List Char → List Char → List String
  | cur, [] => if cur.isEmpty then [] else [String.mk cur.reverse]
  | cur, c :: cs =>
    if isspace c then
      if cur.isEmpty then tokensAux [] cs else String.mk cur.reverse :: tokensAux [] cs
    else tokensAux (c :: cur) cs

/-- Tokens of the contents of a file. -/
def tokens (contents : String) : List String :=
  tokensAux [] contents.data

/-- State of the `ifstream`: the tokens not extracted yet, and the `failbit`. -/
structure IStream where
  /-- Tokens still to be extracted. -/
  toks : List String
  /-- The `failbit`: once set, every extraction is a no-op. -/
  failbit : Bool
deriving DecidableEq, Repr

/-- Construction `std::ifstream inputFile (inputFileName)`; `file` is the contents of the
file of that name, `none` when it cannot be opened (the stream then starts failed). -/
def openInput (file : Option String) : IStream :=
  match file with
  | none => ⟨[], true⟩
  | some contents => ⟨tokens contents, false⟩

/-- One `inputFile >> str`: on a failed stream nothing happens; with no token left the
`failbit` is set and `str` keeps its value; otherwise `str` receives the next token. -/
def extract (s : IStream) (str : String) : IStream × String :=
  if s.failbit then (s, str)
  else
    match s.toks with
    | [] => (⟨[], true⟩, str)
    | t :: ts => (⟨ts, false⟩, t)

/-- The chained extraction `inputFile >> line1 >> line2 >> line3`. -/
def read3 (s : IStream) (line1 line2 line3 : String) : IStream × String × String × String :=
  let r1 := extract s line1
  let r2 := extract r1.1 line2
  let r3 := extract r2.1 line3
  (r3.1, r1.2, r2.2, r3.2)

/-! ## The filter loop and `main` -/

/-- How a run ends: `return 0`, an exception thrown by `std::stod` or `substr` that nothing
catches, or (for the loop only) recursion budget used up. -/
inductive Status where
  | success
  | aborted
  | outOfFuel
deriving DecidableEq, Repr

/-- Lines 37-44, the `while` loop, over exact arithmetic (the masses and the bounds are
exact rationals; `Fp.loop` is the same loop over any floating-point environment). `out` is
what has been inserted into `outputFile` so far; the result is the final `out` and how the
loop ended. Each pass that continues has extracted at least three tokens, so `fuel` above
the number of tokens is never used up. -/
def loop (minMass maxMass : ℚ) :
    Nat → IStream → String → String → String → List String → List String × Status
  | 0, _, _, _, _, out => (out, Status.outOfFuel)
  | fuel + 1, inputFile, line1, line2, line3, out =>
    -- while (inputFile >> line1 >> line2 >> line3)
    let c := read3 inputFile line1 line2 line3
    if c.1.failbit then (out, Status.success)
    else
      -- inputFile >> line1 >> line2 >> line3;
      let b := read3 c.1 c.2.1 c.2.2.1 c.2.2.2
      match stod b.2.1 with
      | none => (out, Status.aborted)
      | some mass =>
        if mass > maxMass then (out, Status.success)
        else if mass > minMass then
          loop minMass maxMass fuel b.1 b.2.1 b.2.2.1 b.2.2.2
            (out ++ [b.2.1 ++ " " ++ b.2.2.1 ++ " " ++ b.2.2.2 ++ "\n"])
        else loop minMass maxMass fuel b.1 b.2.1 b.2.2.1 b.2.2.2 out

/-- Observable result of a run of `main`. -/
structure Run where
  /-- Name of the output file that was opened; `none` when the run aborted before. -/
  outputFileName : Option String
  /-- Texts of the executed `outputFile << ...` statements, in order (one per written
  record). -/
  written : List String
  /-- How the run ended. -/
  status : Status
deriving DecidableEq, Repr

/-- The program over exact arithmetic (`minMass` and `maxMass` are the exact difference and
sum; `Fp.main` is the same program over any floating-point environment): `argv1`, `argv2`,
`argv3` are the three command-line arguments, `file` the contents of the file named `argv1`
(`none` if it cannot be opened), `w` the width of `size_t` in bits. The result lists what
the program inserts into the output stream; `execute` says what reaches the file. -/
def main (w : Nat) (argv1 argv2 argv3 : String) (file : Option String) : Run :=
  match outputFileName w argv1 argv2 with
  | none => ⟨none, [], Status.aborted⟩
  | some outName =>
    let inputFile := openInput file
    match stod argv2 with
    | none => ⟨some outName, [], Status.aborted⟩
    | some specifiedMass =>
      match stod argv3 with
      | none => ⟨some outName, [], Status.aborted⟩
      | some massWindow =>
        let minMass := specifiedMass - massWindow
        let maxMass := specifiedMass + massWindow
        let r := loop minMass maxMass (inputFile.toks.length + 1) inputFile "" "" "" []
        ⟨some outName, r.1, r.2⟩

/-- The inserted texts, concatenated: the contents of the output file after a run that
returns normally, when the output file could be opened. After an aborted run the stream is
not flushed and the file holds only a first part of this text, and with an output file
that cannot be opened nothing is kept (see `execute`). -/
def Run.contents (r : Run) : String :=
  String.join r.written

/-! ## The copy under `CcsCal/input/` -/

namespace CcsCalInput

/-- Lines 37-44 of `CcsCal/input/PreProcessTxt.cpp`, the `while` loop of that copy. `out` is
what has been inserted into `outputFile` so far; the result is the final `out` and how the
loop ended. -/
def loop (minMass maxMass : ℚ) :
    Nat → IStream → String → String → String → List String → List String × Status
  | 0, _, _, _, _, out => (out, Status.outOfFuel)
  | fuel + 1, inputFile, line1, line2, line3, out =>
    -- while (inputFile >> line1 >> line2 >> line3)
    let c := read3 inputFile line1 line2 line3
    if c.1.failbit then (out, Status.success)
    else
      -- inputFile >> line1 >> line2 >> line3;
      let b := read3 c.1 c.2.1 c.2.2.1 c.2.2.2
      match stod b.2.1 with
      | none => (out, Status.aborted)
      | some mass =>
        if mass > maxMass then (out, Status.success)
        else if mass > minMass then
          loop minMass maxMass fuel b.1 b.2.1 b.2.2.1 b.2.2.2
            (out ++ [b.2.1 ++ " " ++ b.2.2.1 ++ " " ++ b.2.2.2 ++ "\n"])
        else loop minMass maxMass fuel b.1 b.2.1 b.2.2.1 b.2.2.2 out

/-- The program of `CcsCal/input/PreProcessTxt.cpp`, lines 18-47; the parameters are those
of `PreProcessTxt.main`. -/
def main (w : Nat) (argv1 argv2 argv3 : String) (file : Option String) : Run :=
  match outputFileName w argv1 argv2 with
  | none => ⟨none, [], Status.aborted⟩
  | some outName =>
    let inputFile := openInput file
    match stod argv2 with
    | none => ⟨some outName, [], Status.aborted⟩
    | some specifiedMass =>
      match stod argv3 with
      | none => ⟨some outName, [], Status.aborted⟩
      | some massWindow =>
        let minMass := specifiedMass - massWindow
        let maxMass := specifiedMass + massWindow
        let r := loop minMass maxMass (inputFile.toks.length + 1) inputFile "" "" "" []
        ⟨some outName, r.1, r.2⟩

end CcsCalInput

/-! ## The program over a floating-point environment -/

namespace Fp

/-- A floating-point environment: the type `double` together with the operations that the
program applies to it. -/
structure Env where
  /-- The values of the type `double`. -/
  D : Type
  /-- The function `std::stod`; `none` stands for an exception (`std::invalid_argument`
  or `std::out_of_range`). -/
  stod : String → Option D
  /-- The difference `a - b` of two `double`. -/
  sub : D → D → D
  /-- The sum `a + b` of two `double`. -/
  add : D → D → D
  /-- The comparison `a > b` of two `double`. -/
  gt : D → D → Bool

/-- Lines 37-44, the `while` loop, over the environment `E`. `out` is what has been
inserted into `outputFile` so far; the result is the final `out` and how the loop ended.
Each pass that continues has extracted at least three tokens, so `fuel` above the number
of tokens is never used up. -/
def loop (E : Env) (minMass maxMass : E.D) :
    Nat → IStream → String → String → String → List String → List String × Status
  | 0, _, _, _, _, out => (out, Status.outOfFuel)
  | fuel + 1, inputFile, line1, line2, line3, out =>
    -- while (inputFile >> line1 >> line2 >> line3)
    let c := read3 inputFile line1 line2 line3
    if c.1.failbit then (out, Status.success)
    else
      -- inputFile >> line1 >> line2 >> line3;
      let b := read3 c.1 c.2.1 c.2.2.1 c.2.2.2
      match E.stod b.2.1 with
      | none => (out, Status.aborted)
      | some mass =>
        if E.gt mass maxMass then (out, Status.success)
        else if E.gt mass minMass then
          loop E minMass maxMass fuel b.1 b.2.1 b.2.2.1 b.2.2.2
            (out ++ [b.2.1 ++ " " ++ b.2.2.1 ++ " " ++ b.2.2.2 ++ "\n"])
        else loop E minMass maxMass fuel b.1 b.2.1 b.2.2.1 b.2.2.2 out

/-- The program, lines 18-47, over the environment `E`: `argv1`, `argv2`, `argv3` are the
three command-line arguments, `file` the contents of the file named `argv1` as the input
stream finds them (`none` if it cannot be opened), `w` the width of `size_t` in bits. -/
def main (E : Env) (w : Nat) (argv1 argv2 argv3 : String) (file : Option String) : Run :=
  match outputFileName w argv1 argv2 with
  | none => ⟨none, [], Status.aborted⟩
  | some outName =>
    let inputFile := openInput file
    match E.stod argv2 with
    | none => ⟨some outName, [], Status.aborted⟩
    | some specifiedMass =>
      match E.stod argv3 with
      | none => ⟨some outName, [], Status.aborted⟩
      | some massWindow =>
        let minMass := E.sub specifiedMass massWindow
        let maxMass := E.add specifiedMass massWindow
        let r := loop E minMass maxMass (inputFile.toks.length + 1) inputFile "" "" "" []
        ⟨some outName, r.1, r.2⟩

end Fp

/-- The environment of exact arithmetic: rational values, decimal literals, no rounding.
The definitions `loop` and `main` above are the program over this environment. -/
def exactEnv : Fp.Env where
  D := ℚ
  stod := stod
  sub := fun a b => a - b
  add := fun a b => a + b
  gt := fun a b => decide (a > b)

/-! ## The type `double` as IEEE 754 binary64 -/

/-- The power `2 ^ k` for an integer `k`. -/
def pow2 (k : Int) : ℚ :=
  match k with
  | Int.ofNat n => ((2 ^ n : Nat) : ℚ)
  | Int.negSucc n => mkRat 1 (2 ^ (n + 1))

/-- Halving `n` until it is below 2, at most `fuel` times: the number of halvings. -/
def halvings : Nat → Nat → Nat
  | 0, _ => 0
  | fuel + 1, n => if n < 2 then 0 else halvings fuel (n / 2) + 1

/-- The natural number `k` with `2 ^ k <= n < 2 ^ (k + 1)`, for `n >= 1`. -/
def log2 (n : Nat) : Nat :=
  halvings n n

/-- The integer `e` with `2 ^ e <= a < 2 ^ (e + 1)`, for `a > 0`: it is `k` or `k - 1` for
the difference `k` of the logarithms of the numerator and of the denominator. -/
def ilog2 (a : ℚ) : Int :=
  let k : Int := Int.ofNat (log2 a.num.toNat) - Int.ofNat (log2 a.den)
  if pow2 k ≤ a then k else k - 1

/-- The integer nearest to `x >= 0`, the even one of the two when `x` lies half way. -/
def roundHalfEven (x : ℚ) : Nat :=
  let f := x.num.toNat / x.den
  let r := x - (f : ℚ)
  if r < 1 / 2 then f
  else if 1 / 2 < r then f + 1
  else if f % 2 = 0 then f else f + 1

/-- A value of the type `double` (IEEE 754 binary64): not-a-number, an infinity, or a
finite value given by its exact rational value (the two zeros are not told apart: the
program only adds, subtracts and compares). -/
inductive Double where
  | nan
  | inf (negative : Bool)
  | fin (value : ℚ)
deriving DecidableEq, Repr

namespace Double

/-- Rounding of an exact value to binary64, to nearest, ties to even: 53 significant bits,
least exponent `-1022` (below it the spacing stays `2 ^ -1074`), overflow to an infinity. -/
def round (q : ℚ) : Double :=
  if q = 0 then fin 0
  else
    let a := if q < 0 then -q else q
    let e := max (ilog2 a) (-1022) - 52
    let v := (roundHalfEven (a / pow2 e) : ℚ) * pow2 e
    if pow2 1024 ≤ v then inf (decide (q < 0))
    else fin (if q < 0 then -v else v)

/-- The negation `-a`. -/
def neg : Double → Double
  | nan => nan
  | inf s => inf (!s)
  | fin x => fin (-x)

/-- The sum `a + b`. -/
def add : Double → Double → Double
  | fin x, fin y => round (x + y)
  | fin _, inf s => inf s
  | inf s, fin _ => inf s
  | inf s, inf t => if s = t then inf s else nan
  | nan, _ => nan
  | _, nan => nan

/-- The difference `a - b`. -/
def sub (a b : Double) : Double :=
  add a (neg b)

/-- The comparison `a > b`; false when one side is not a number. -/
def gt : Double → Double → Bool
  | fin x, fin y => decide (x > y)
  | fin _, inf s => s
  | inf s, fin _ => !s
  | inf s, inf t => !s && t
  | nan, _ => false
  | _, nan => false

/-- The comparison `a <= b`; false when one side is not a number. -/
def le : Double → Double → Bool
  | fin x, fin y => decide (x ≤ y)
  | fin _, inf s => !s
  | inf s, fin _ => s
  | inf s, inf t => s || !t
  | nan, _ => false
  | _, nan => false

end Double

/-- Classification of `std::isxdigit`. -/
def isxdigit (c : Char) : Bool :=
  c.isDigit || ('a' ≤ c && c ≤ 'f') || ('A' ≤ c && c ≤ 'F')

/-- Value of a run of hexadecimal digits. -/
def hexVal (ds : List Char) : Nat :=
  ds.foldl (fun n c => 16 * n +
    (if c.isDigit then c.toNat - '0'.toNat
      else if 'a' ≤ c then c.toNat - 'a'.toNat + 10
      else c.toNat - 'A'.toNat + 10)) 0

/-- Binary exponent part of a hexadecimal floating literal: `p` or `P`, an optional sign
and at least one decimal digit; anything else counts as exponent `0`. -/
def binExponent (s : List Char) : Int :=
  match s with
  | [] => 0
  | c :: r =>
    if c == 'p' || c == 'P' then
      match r with
      | '-' :: r1 =>
        if (r1.takeWhile Char.isDigit).isEmpty then 0
        else - Int.ofNat (digitsVal (r1.takeWhile Char.isDigit))
      | '+' :: r1 => Int.ofNat (digitsVal (r1.takeWhile Char.isDigit))
      | _ => Int.ofNat (digitsVal (r.takeWhile Char.isDigit))
    else 0

/-- Exact value of the hexadecimal floating literal that starts `str` after white space
and sign (`0x` or `0X`, hexadecimal digits with an optional point, optional binary
exponent); `none` when `str` does not start with one. -/
def hexValue (str : String) : Option ℚ :=
  let s := str.data.dropWhile isspace
  let neg := match s with
    | '-' :: _ => true
    | _ => false
  let s := match s with
    | '-' :: r => r
    | '+' :: r => r
    | _ => s
  match s with
  | '0' :: x :: s0 =>
    if x == 'x' || x == 'X' then
      let ip := s0.takeWhile isxdigit
      let s1 := s0.dropWhile isxdigit
      let fp := match s1 with
        | '.' :: r => r.takeWhile isxdigit
        | _ => []
      let s2 := match s1 with
        | '.' :: r => r.dropWhile isxdigit
        | _ => s1
      if ip.isEmpty && fp.isEmpty then none
      else
        let v := (hexVal (ip ++ fp) : ℚ) * pow2 (binExponent s2 - 4 * Int.ofNat fp.length)
        some (if neg then -v else v)
    else none
  | _ => none

/-- The word (`inf` or `nan`, in any letter case) that starts `str` after white space and
sign, as a `double`. -/
def wordValue (str : String) : Option Double :=
  let s := str.data.dropWhile isspace
  let neg := match s with
    | '-' :: _ => true
    | _ => false
  let s := match s with
    | '-' :: r => r
    | '+' :: r => r
    | _ => s
  if (s.take 3).map Char.toLower = ['i', 'n', 'f'] then some (Double.inf neg)
  else if (s.take 3).map Char.toLower = ['n', 'a', 'n'] then some Double.nan
  else none

/-- Result of `std::stod` for a literal of exact value `q`: the nearest binary64; `none`
stands for `std::out_of_range`, thrown when `strtod` reports a range error (the value
overflows, or the result is below the least normal value `2 ^ -1022` and not exact). -/
def Double.ofLiteral (q : ℚ) : Option Double :=
  match Double.round q with
  | Double.fin v =>
    if v ≠ q ∧ (if v < 0 then -v else v) < pow2 (-1022) then none else some (Double.fin v)
  | _ => none

/-- Model of `std::stod(str)` in binary64: a hexadecimal or a decimal floating literal is
rounded to the nearest `double`, `inf` and `nan` are read as such; `none` stands for an
exception (`std::invalid_argument` or `std::out_of_range`). -/
def Double.stod (str : String) : Option Double :=
  match hexValue str with
  | some q => Double.ofLiteral q
  | none =>
    match PreProcessTxt.stod str with
    | some q => Double.ofLiteral q
    | none => wordValue str

/-- The environment of IEEE 754 binary64 arithmetic, with `std::stod` as above. -/
@[reducible] def binary64 : Fp.Env where
  D := Double
  stod := Double.stod
  sub := Double.sub
  add := Double.add
  gt := Double.gt

/-! ## Vocabulary for the statements -/

/-- A record of the data file: the mass token and the two tokens that follow it. -/
abbrev Record := String × String × String

/-- The token sequence of a file made of the complete triplets `rs`. -/
def flatten : List Record → List String
  | [] => []
  | r :: rs => r.1 :: r.2.1 :: r.2.2 :: flatten rs

/-- The complete triplets of a token sequence, in order (a trailing group of one or two
tokens is not a triplet). -/
def triplets : List String → List Record
  | a :: b :: c :: rest => (a, b, c) :: triplets rest
  | _ => []

/-- Text of one output line: the three tokens, single spaces between them, one newline. -/
def formatLine (r : Record) : String :=
  r.1 ++ " " ++ r.2.1 ++ " " ++ r.2.2 ++ "\n"

/-- The filter as section 8 of the specification words it: the records whose mass lies in
the window `minMass < mass <= maxMass`, in their original order. -/
def specFilter (minMass maxMass : ℚ) (rs : List Record) : List Record :=
  rs.filter fun r =>
    match stod r.1 with
    | some mass => decide (minMass < mass ∧ mass ≤ maxMass)
    | none => false

/-- The records on which the loop body runs its tests, for an input of complete triplets:
the loop condition extracts one triplet and the first statement of the body extracts the
next one over it; when no next one is left, the triplet of the condition stays. -/
def examined : List Record → List Record
  | [] => []
  | [r] => [r]
  | _ :: r2 :: rest => r2 :: examined rest

/-- The tests of the loop body, run over a sequence of examined records: the lines that
are written and the way the scan ends. -/
def scan (minMass maxMass : ℚ) : List Record → List String × Status
  | [] => ([], Status.success)
  | r :: rs =>
    match stod r.1 with
    | none => ([], Status.aborted)
    | some mass =>
      if mass > maxMass then ([], Status.success)
      else if mass > minMass then
        (formatLine r :: (scan minMass maxMass rs).1, (scan minMass maxMass rs).2)
      else scan minMass maxMass rs

/-- The records at the even positions `2, 4, ...` (counted from 1) of `rs`, in order. -/
def evenPositioned (rs : List Record) : List Record :=
  (List.range (rs.length / 2)).filterMap fun k => rs[2 * k + 1]?

/-- The examined sequence in words: the records at the even positions, followed by the
last record when the number of records is odd. -/
def specExamined (rs : List Record) : List Record :=
  evenPositioned rs ++ (if rs.length % 2 = 1 then rs.getLast?.toList else [])

/-! ## Vocabulary for the statements, over an environment -/

namespace Fp

/-- Test "the mass token of `r` is a number and its value is not above `maxMass`": the
scan goes on after `r`. -/
def goesOn (E : Env) (maxMass : E.D) (r : Record) : Bool :=
  match E.stod r.1 with
  | some mass => !E.gt mass maxMass
  | none => false

/-- Test "the mass token of `r` is a number and its value is above `minMass`". -/
def massAbove (E : Env) (minMass : E.D) (r : Record) : Bool :=
  match E.stod r.1 with
  | some mass => E.gt mass minMass
  | none => false

/-- The output in words: of the examined records, those that precede the first one whose
mass is above `maxMass` (or is not a number) and that have a mass above `minMass`, as
lines. -/
def specOutput (E : Env) (minMass maxMass : E.D) (rs : List Record) : List String :=
  (((specExamined rs).takeWhile (goesOn E maxMass)).filter (massAbove E minMass)).map
    formatLine

/-- The way the run ends, in words: normally, unless the first examined record at which
the scan does not go on has a mass token that is not a number. -/
def specStatus (E : Env) (maxMass : E.D) (rs : List Record) : Status :=
  match (specExamined rs).dropWhile (goesOn E maxMass) with
  | [] => Status.success
  | r :: _ => if (E.stod r.1).isSome then Status.success else Status.aborted

/-- The tests of the loop body over `E`, run over a sequence of examined records: the
lines that are written and the way the scan ends. -/
def scan (E : Env) (minMass maxMass : E.D) : List Record → List String × Status
  | [] => ([], Status.success)
  | r :: rs =>
    match E.stod r.1 with
    | none => ([], Status.aborted)
    | some mass =>
      if E.gt mass maxMass then ([], Status.success)
      else if E.gt mass minMass then
        (formatLine r :: (scan E minMass maxMass rs).1, (scan E minMass maxMass rs).2)
      else scan E minMass maxMass rs

end Fp

/-! ## The program on a file system -/

/-- A file system as the program sees it: the contents of the file of each name, `none`
for a name that cannot be opened for reading. -/
abbrev Files := String → Option String

/-- The file system in which the file `name` has the contents `contents`, the other files
being those of `fs`. -/
def store (fs : Files) (name contents : String) : Files :=
  fun n => if n = name then some contents else fs n

/-- What the output file holds when the run `r` is over. At `return 0` the output stream
is flushed and closed, and the file holds all the inserted text. When an exception ends the
run the stream is not flushed: the file holds the first `reached r.written` characters of
the inserted text, the part that had left the stream buffer before (how much that is
depends on the buffer and on the insertions made). -/
def leftInFile (reached : List String → Nat) (r : Run) : String :=
  match r.status with
  | Status.success => r.contents
  | _ => String.mk (r.contents.data.take (reached r.written))

/-- One execution of the program on the file system `fs`, over the environment `E`.
Line 24 opens the input file and line 26 the output file. When the output file can be
opened (`writable`), opening creates it or empties it; otherwise the output stream is
failed, every insertion is lost and no file changes. The tokens are extracted after both
files are opened, and when the run is over the output file holds `leftInFile`. -/
def execute (E : Fp.Env) (w : Nat) (writable : String → Bool) (reached : List String → Nat)
    (argv1 argv2 argv3 : String) (fs : Files) : Files :=
  match outputFileName w argv1 argv2 with
  | none => fs
  | some outName =>
    if writable outName then
      let opened := store fs outName ""
      let input := match fs argv1 with
        | none => none
        | some _ => opened argv1
      store fs outName (leftInFile reached (Fp.main E w argv1 argv2 argv3 input))
    else fs

/-! ## The input stream: basic facts -/

theorem read3_failed (toks : List String) (l1 l2 l3 : String) :
    read3 ⟨toks, true⟩ l1 l2 l3 = (⟨toks, true⟩, l1, l2, l3) := by
  simp [read3, extract]

theorem read3_nil (l1 l2 l3 : String) :
    read3 ⟨[], false⟩ l1 l2 l3 = (⟨[], true⟩, l1, l2, l3) := by
  simp [read3, extract]

theorem read3_one (a l1 l2 l3 : String) :
    read3 ⟨[a], false⟩ l1 l2 l3 = (⟨[], true⟩, a, l2, l3) := by
  simp [read3, extract]

theorem read3_two (a b l1 l2 l3 : String) :
    read3 ⟨[a, b], false⟩ l1 l2 l3 = (⟨[], true⟩, a, b, l3) := by
  simp [read3, extract]

theorem read3_three (a b c : String) (rest : List String) (l1 l2 l3 : String) :
    read3 ⟨a :: b :: c :: rest, false⟩ l1 l2 l3 = (⟨rest, false⟩, a, b, c) := by
  simp [read3, extract]

/-- A chained extraction that leaves the stream usable has taken three tokens. -/
theorem read3_good (s : IStream) (l1 l2 l3 : String)
    (h : (read3 s l1 l2 l3).1.failbit = false) :
    ∃ a b c rest, s = ⟨a :: b :: c :: rest, false⟩ ∧
      read3 s l1 l2 l3 = (⟨rest, false⟩, a, b, c) := by
  obtain ⟨toks, fb⟩ := s
  cases fb
  · match toks with
    | [] => simp [read3_nil] at h
    | [a] => simp [read3_one] at h
    | [a, b] => simp [read3_two] at h
    | a :: b :: c :: rest => exact ⟨a, b, c, rest, rfl, read3_three a b c rest l1 l2 l3⟩
  · simp [read3_failed] at h

/-- After any chained extraction the first string is the old one or a token of the stream,
and the tokens left were already there. -/
theorem read3_any (s : IStream) (l1 l2 l3 : String) :
    ((read3 s l1 l2 l3).2.1 = l1 ∨ (read3 s l1 l2 l3).2.1 ∈ s.toks) ∧
      ∀ t ∈ (read3 s l1 l2 l3).1.toks, t ∈ s.toks := by
  obtain ⟨toks, fb⟩ := s
  cases fb
  · match toks with
    | [] => simp [read3_nil]
    | [a] => simp [read3_one]
    | [a, b] => simp [read3_two]
    | a :: b :: c :: rest =>
      simp only [read3_three]
      exact ⟨Or.inr (List.mem_cons_self _ _), fun t ht => by simp [ht]⟩
  · simp [read3_failed]

/-! ## The loop: unfolding -/

theorem loop_failed (minMass maxMass : ℚ) (fuel : Nat) (toks : List String)
    (l1 l2 l3 : String) (out : List String) :
    loop minMass maxMass (fuel + 1) ⟨toks, true⟩ l1 l2 l3 out = (out, Status.success) := by
  simp [loop, read3_failed]

/-- What one pass of the loop does once its condition has extracted the triplet `a b c`. -/
theorem loop_three (minMass maxMass : ℚ) (fuel : Nat) (a b c : String) (rest : List String)
    (l1 l2 l3 : String) (out : List String) :
    loop minMass maxMass (fuel + 1) ⟨a :: b :: c :: rest, false⟩ l1 l2 l3 out =
      match stod (read3 ⟨rest, false⟩ a b c).2.1 with
      | none => (out, Status.aborted)
      | some mass =>
        if mass > maxMass then (out, Status.success)
        else if mass > minMass then
          loop minMass maxMass fuel (read3 ⟨rest, false⟩ a b c).1
            (read3 ⟨rest, false⟩ a b c).2.1 (read3 ⟨rest, false⟩ a b c).2.2.1
            (read3 ⟨rest, false⟩ a b c).2.2.2
            (out ++ [formatLine ((read3 ⟨rest, false⟩ a b c).2.1,
              (read3 ⟨rest, false⟩ a b c).2.2.1, (read3 ⟨rest, false⟩ a b c).2.2.2)])
        else
          loop minMass maxMass fuel (read3 ⟨rest, false⟩ a b c).1
            (read3 ⟨rest, false⟩ a b c).2.1 (read3 ⟨rest, false⟩ a b c).2.2.1
            (read3 ⟨rest, false⟩ a b c).2.2.2 out := by
  rw [loop]
  simp only [read3_three, formatLine]
  rfl

/-- A pass whose condition fails ends the loop with what was written before. -/
theorem loop_cond_failed (minMass maxMass : ℚ) (fuel : Nat) (s : IStream)
    (l1 l2 l3 : String) (out : List String) (h : (read3 s l1 l2 l3).1.failbit = true) :
    loop minMass maxMass (fuel + 1) s l1 l2 l3 out = (out, Status.success) := by
  rw [loop]
  simp [h]

/-! ## `main`: unfolding -/

/-- Line 22 never throws: `substr` is called with position `0`. -/
theorem outputFileName_eq (w : Nat) (inputFileName argv2 : String) :
    outputFileName w inputFileName argv2 =
      some (String.mk (inputFileName.data.take
          (min ((inputFileName.length + 2 ^ w - 4) % 2 ^ w) inputFileName.length))
        ++ ".pp-" ++ argv2 ++ ".txt") := by
  simp [outputFileName, substr]

/-- A run whose two numeric arguments parse: the loop is run over the opened input. -/
theorem main_parsed (w : Nat) (argv1 argv2 argv3 : String) (file : Option String)
    (specifiedMass massWindow : ℚ) (h2 : stod argv2 = some specifiedMass)
    (h3 : stod argv3 = some massWindow) :
    main w argv1 argv2 argv3 file =
      ⟨outputFileName w argv1 argv2,
        (loop (specifiedMass - massWindow) (specifiedMass + massWindow)
          ((openInput file).toks.length + 1) (openInput file) "" "" "" []).1,
        (loop (specifiedMass - massWindow) (specifiedMass + massWindow)
          ((openInput file).toks.length + 1) (openInput file) "" "" "" []).2⟩ := by
  simp [main, outputFileName_eq, h2, h3]

/-- A run in which `std::stod` rejects the target mass or the mass window writes nothing. -/
theorem main_unparsed (w : Nat) (argv1 argv2 argv3 : String) (file : Option String)
    (h : stod argv2 = none ∨ stod argv3 = none) :
    main w argv1 argv2 argv3 file = ⟨outputFileName w argv1 argv2, [], Status.aborted⟩ := by
  rcases h with h | h
  · simp [main, outputFileName_eq, h]
  · cases h2 : stod argv2 <;> simp [main, outputFileName_eq, h, h2]

/-! ## The loop on an input of complete triplets -/

theorem flatten_length (rs : List Record) : (flatten rs).length = 3 * rs.length := by
  induction rs with
  | nil => rfl
  | cons r rs ih => simp [flatten, ih]; omega

/-- On an input made of the complete triplets `rs`, the loop writes what the tests of its
body give on the examined records, and ends the same way; any `fuel` above the number of
tokens is enough. -/
theorem loop_flatten (minMass maxMass : ℚ) (rs : List Record) :
    ∀ (fuel : Nat) (l1 l2 l3 : String) (out : List String),
      (flatten rs).length < fuel →
        loop minMass maxMass fuel ⟨flatten rs, false⟩ l1 l2 l3 out =
          (out ++ (scan minMass maxMass (examined rs)).1,
            (scan minMass maxMass (examined rs)).2) := by
  induction rs using examined.induct with
  | case1 =>
    intro fuel l1 l2 l3 out hf
    obtain ⟨f, rfl⟩ : ∃ f, fuel = f + 1 := ⟨fuel - 1, by omega⟩
    rw [loop_cond_failed _ _ _ _ _ _ _ _ (by simp [flatten, read3_nil])]
    simp [examined, scan]
  | case2 r =>
    intro fuel l1 l2 l3 out hf
    obtain ⟨a, b, c⟩ := r
    simp only [flatten, List.length_cons, List.length_nil] at hf
    obtain ⟨f, rfl⟩ : ∃ f, fuel = f + 2 := ⟨fuel - 2, by omega⟩
    simp only [flatten, examined, scan]
    rw [loop_three, read3_nil]
    cases hm : stod a with
    | none => simp
    | some mass =>
      simp only
      by_cases hmax : mass > maxMass
      · simp [hmax]
      · by_cases hmin : mass > minMass
        · simp [hmax, hmin, loop_failed]
        · simp [hmax, hmin, loop_failed]
  | case3 r1 r2 rest ih =>
    intro fuel l1 l2 l3 out hf
    obtain ⟨a, b, c⟩ := r1
    obtain ⟨d, e, g⟩ := r2
    simp only [flatten, List.length_cons] at hf
    obtain ⟨f, rfl⟩ : ∃ f, fuel = f + 1 := ⟨fuel - 1, by omega⟩
    have hf2 : (flatten rest).length < f := by omega
    simp only [flatten, examined, scan]
    rw [loop_three, read3_three]
    cases hm : stod d with
    | none => simp
    | some mass =>
      simp only
      by_cases hmax : mass > maxMass
      · simp [hmax]
      · by_cases hmin : mass > minMass
        · simp [hmax, hmin, ih f d e g _ hf2]
        · simp [hmax, hmin, ih f d e g _ hf2]

/-- The lines that the tests write come from the examined records, in order. -/
theorem scan_sublist (minMass maxMass : ℚ) (rs : List Record) :
    ((scan minMass maxMass rs).1).Sublist (rs.map formatLine) := by
  induction rs with
  | nil => simp [scan]
  | cons r rs ih =>
    simp only [scan, List.map_cons]
    cases hm : stod r.1 with
    | none => simp
    | some mass =>
      simp only
      by_cases hmax : mass > maxMass
      · simp [hmax]
      · by_cases hmin : mass > minMass
        · simp only [hmax, hmin, if_true, if_false]
          exact ih.cons₂ _
        · simp only [hmax, hmin, if_false]
          exact ih.cons _

/-- The examined records are records of the input, in order. -/
theorem examined_sublist (rs : List Record) : (examined rs).Sublist rs := by
  induction rs using examined.induct with
  | case1 => simp [examined]
  | case2 r => simp [examined]
  | case3 r1 r2 rest ih =>
    simp only [examined]
    exact (ih.cons₂ _).cons _

/-- A token sequence whose length is a multiple of three is made of its triplets. -/
theorem flatten_triplets (toks : List String) (h : 3 ∣ toks.length) :
    flatten (triplets toks) = toks := by
  induction toks using triplets.induct with
  | case1 a b c rest ih =>
    have h3 : 3 ∣ rest.length := by
      simp only [List.length_cons] at h
      omega
    simp [triplets, flatten, ih h3]
  | case2 toks hne =>
    match toks, hne, h with
    | [], _, _ => simp [triplets, flatten]
    | [a], _, h => exact absurd (show 3 ∣ 1 from h) (by decide)
    | [a, b], _, h => exact absurd (show 3 ∣ 2 from h) (by decide)
    | a :: b :: c :: rest, hne, _ => exact absurd rfl (hne a b c rest)

/-! ## Termination and the empty window -/

theorem read3_toks_length (s : IStream) (l1 l2 l3 : String) :
    (read3 s l1 l2 l3).1.toks.length ≤ s.toks.length := by
  obtain ⟨toks, fb⟩ := s
  cases fb
  · match toks with
    | [] => simp [read3_nil]
    | [a] => simp [read3_one]
    | [a, b] => simp [read3_two]
    | a :: b :: c :: rest => simp only [read3_three, List.length_cons]; omega
  · simp [read3_failed]

/-- With more fuel than tokens the loop ends by itself, never for lack of fuel. -/
theorem loop_status (minMass maxMass : ℚ) :
    ∀ (fuel : Nat) (s : IStream) (l1 l2 l3 : String) (out : List String),
      s.toks.length < fuel →
        (loop minMass maxMass fuel s l1 l2 l3 out).2 ≠ Status.outOfFuel := by
  intro fuel
  induction fuel with
  | zero => intro s l1 l2 l3 out h; omega
  | succ fuel ih =>
    intro s l1 l2 l3 out hf
    cases hc : (read3 s l1 l2 l3).1.failbit with
    | true =>
      rw [loop_cond_failed minMass maxMass fuel s l1 l2 l3 out hc]
      simp
    | false =>
      obtain ⟨a, b, c, rest, hs, -⟩ := read3_good s l1 l2 l3 hc
      subst hs
      have hlen := read3_toks_length ⟨rest, false⟩ a b c
      simp only [List.length_cons] at hf hlen
      have hf2 : (read3 ⟨rest, false⟩ a b c).1.toks.length < fuel := by
        omega
      rw [loop_three]
      cases hm : stod (read3 ⟨rest, false⟩ a b c).2.1 with
      | none => simp
      | some mass =>
        simp only
        by_cases hmax : mass > maxMass
        · simp [hmax]
        · by_cases hmin : mass > minMass
          · simp only [hmax, hmin, if_true, if_false]
            exact ih _ _ _ _ _ hf2
          · simp only [hmax, hmin, if_false]
            exact ih _ _ _ _ _ hf2

/-- A run of `main` never ends for lack of fuel: the loop is total on every input. -/
theorem main_status (w : Nat) (argv1 argv2 argv3 : String) (file : Option String) :
    (main w argv1 argv2 argv3 file).status ≠ Status.outOfFuel := by
  cases h2 : stod argv2 with
  | none => simp [main_unparsed w argv1 argv2 argv3 file (Or.inl h2)]
  | some specifiedMass =>
    cases h3 : stod argv3 with
    | none => simp [main_unparsed w argv1 argv2 argv3 file (Or.inr h3)]
    | some massWindow =>
      rw [main_parsed w argv1 argv2 argv3 file specifiedMass massWindow h2 h3]
      exact loop_status _ _ _ _ _ _ _ _ (Nat.lt_succ_self _)

/-- The output file name of a run is the one line 22 computes, however the run ends. -/
theorem main_outputFileName (w : Nat) (argv1 argv2 argv3 : String) (file : Option String) :
    (main w argv1 argv2 argv3 file).outputFileName = outputFileName w argv1 argv2 := by
  cases h2 : stod argv2 with
  | none => simp [main_unparsed w argv1 argv2 argv3 file (Or.inl h2)]
  | some specifiedMass =>
    cases h3 : stod argv3 with
    | none => simp [main_unparsed w argv1 argv2 argv3 file (Or.inr h3)]
    | some massWindow =>
      rw [main_parsed w argv1 argv2 argv3 file specifiedMass massWindow h2 h3]

/-- An input stream with a token to give was opened on a readable file. -/
theorem openInput_of_toks (file : Option String) (toks : List String)
    (h : (openInput file).toks = toks) (hne : toks ≠ []) : openInput file = ⟨toks, false⟩ := by
  cases file with
  | none => simp [openInput] at h; exact absurd h hne
  | some contents => simp only [openInput] at h ⊢; rw [h]

/-! ## The claims -/

/-- Claim C1, evaluated on the code: the input `150.2 c d`, `150.5 e f` is made of complete
triplets with ascending masses, both inside the window of target `150` and tolerance `1`,
so the filter of the specification keeps both records; the loop writes only the second
one, because the extraction at the top of the loop body replaces the triplet that the loop
condition has just extracted. -/
theorem double_read_drops_record :
    (openInput (some "150.2 c d\n150.5 e f\n")).toks
        = flatten [("150.2", "c", "d"), ("150.5", "e", "f")] ∧
      [stod "150", stod "1", stod "150.2", stod "150.5"]
        = [some 150, some 1, some (751 / 5), some (301 / 2)] ∧
      (specFilter (150 - 1) (150 + 1) [("150.2", "c", "d"), ("150.5", "e", "f")]).map formatLine
        = ["150.2 c d\n", "150.5 e f\n"] ∧
      (main 64 "data.txt" "150" "1" (some "150.2 c d\n150.5 e f\n")).written
        = ["150.5 e f\n"] := by
  decide!

/-- Claim C3, evaluated on the code: in the sorted input `151.0 a b`, `152.0 c d` the first
record has mass exactly `maxMass = 150 + 1`, and the run writes nothing: the record is
extracted by the loop condition and replaced by the next one before any test. -/
theorem double_read_drops_max_record :
    (openInput (some "151.0 a b\n152.0 c d\n")).toks
        = flatten [("151.0", "a", "b"), ("152.0", "c", "d")] ∧
      [stod "150", stod "1", stod "151.0", stod "152.0"]
        = [some 150, some 1, some (150 + 1), some 152] ∧
      (main 64 "data.txt" "150" "1" (some "151.0 a b\n152.0 c d\n")).written = [] := by
  decide!

/-- Claim C4, evaluated on the code: in the input `200.0 a b`, `150.2 c d` the first record
has a mass above `maxMass = 151`, and the record after it is written all the same: the
first record is never tested, the loop body tests the second one. -/
theorem double_read_skips_stop_record :
    (openInput (some "200.0 a b\n150.2 c d\n")).toks
        = flatten [("200.0", "a", "b"), ("150.2", "c", "d")] ∧
      [stod "150", stod "1", stod "200.0"] = [some 150, some 1, some 200] ∧
      (main 64 "data.txt" "150" "1" (some "200.0 a b\n150.2 c d\n")).written
        = ["150.2 c d\n"] := by
  decide!

/-- Claim C5: when the input is exactly the tokens of the three triplets `100.0 a b`,
`150.2 c d`, `151.0 e f` (whatever white space separates them), with target-mass argument
`150` and tolerance argument `1`, the run writes the two lines `150.2 c d` and `151.0 e f`
and nothing else, and ends normally. -/
theorem example_run (w : Nat) (argv1 : String) (file : Option String)
    (h : (openInput file).toks
      = ["100.0", "a", "b", "150.2", "c", "d", "151.0", "e", "f"]) :
    (main w argv1 "150" "1" file).written = ["150.2 c d\n", "151.0 e f\n"] ∧
      (main w argv1 "150" "1" file).contents = "150.2 c d\n151.0 e f\n" ∧
      (main w argv1 "150" "1" file).status = Status.success := by
  have h2 : stod "150" = some 150 := by decide!
  have h3 : stod "1" = some 1 := by decide!
  have hl : loop (150 - 1) (150 + 1) 10
      ⟨["100.0", "a", "b", "150.2", "c", "d", "151.0", "e", "f"], false⟩ "" "" "" []
      = (["150.2 c d\n", "151.0 e f\n"], Status.success) := by decide!
  have hopen := openInput_of_toks file _ h (by simp)
  have hmain := main_parsed w argv1 "150" "1" file 150 1 h2 h3
  rw [hopen] at hmain
  simp only [List.length_cons, List.length_nil] at hmain
  rw [hl] at hmain
  rw [hmain]
  exact ⟨rfl, rfl, rfl⟩

/-- Witness of claim C5: the file `data.txt` with one triplet per line. -/
theorem example_run_witness :
    (openInput (some "100.0 a b\n150.2 c d\n151.0 e f\n")).toks
        = ["100.0", "a", "b", "150.2", "c", "d", "151.0", "e", "f"] ∧
      (main 64 "data.txt" "150" "1" (some "100.0 a b\n150.2 c d\n151.0 e f\n")).written
        = ["150.2 c d\n", "151.0 e f\n"] ∧
      (main 64 "data.txt" "150" "1" (some "100.0 a b\n150.2 c d\n151.0 e f\n")).contents
        = "150.2 c d\n151.0 e f\n" ∧
      (main 64 "data.txt" "150" "1" (some "100.0 a b\n150.2 c d\n151.0 e f\n")).status
        = Status.success :=
  ⟨by decide, example_run 64 "data.txt" (some "100.0 a b\n150.2 c d\n151.0 e f\n") (by decide)⟩

/-- Claim C6, evaluated on the code: the input of the example followed by one more triplet
`152.0 g h`, whose mass is above `151.0`; the run writes only `150.2 c d`: the record
`151.0 e f` is extracted by the loop condition and replaced by `152.0 g h`, which stops
the scan. -/
theorem double_read_drops_example_record :
    (openInput (some "100.0 a b\n150.2 c d\n151.0 e f\n152.0 g h\n")).toks
        = ["100.0", "a", "b", "150.2", "c", "d", "151.0", "e", "f"] ++
          flatten [("152.0", "g", "h")] ∧
      [stod "151.0", stod "152.0"] = [some 151, some 152] ∧
      (main 64 "data.txt" "150" "1"
        (some "100.0 a b\n150.2 c d\n151.0 e f\n152.0 g h\n")).written
        = ["150.2 c d\n"] := by
  decide!

/-- Claim C7: for an input path of at least 4 characters (and of a length that `size_t`
holds), the output path is the input path without its last 4 characters, then `.pp-`, then
the target-mass argument as it was passed, then `.txt`. -/
theorem output_path_of_long_path (w : Nat) (argv1 argv2 argv3 : String)
    (file : Option String) (h4 : 4 ≤ argv1.length) (hw : argv1.length < 2 ^ w) :
    (main w argv1 argv2 argv3 file).outputFileName =
      some (String.mk (argv1.data.take (argv1.length - 4)) ++ ".pp-" ++ argv2 ++ ".txt") := by
  rw [main_outputFileName, outputFileName_eq]
  have hwrap : (argv1.length + 2 ^ w - 4) % 2 ^ w = argv1.length - 4 := by
    have : argv1.length + 2 ^ w - 4 = (argv1.length - 4) + 2 ^ w := by omega
    rw [this, Nat.add_mod_right, Nat.mod_eq_of_lt (by omega)]
  rw [hwrap, Nat.min_eq_left (Nat.sub_le _ _)]

/-- Witness of claim C7: `data.txt` and `150` give `data.pp-150.txt`, and the argument
`150.50` is kept as it is. -/
theorem output_path_of_long_path_witness :
    (4 ≤ "data.txt".length ∧ "data.txt".length < 2 ^ 64) ∧
      (main 64 "data.txt" "150" "1" none).outputFileName = some "data.pp-150.txt" ∧
      (main 64 "data.txt" "150.50" "1" none).outputFileName = some "data.pp-150.50.txt" :=
  ⟨by decide,
    (output_path_of_long_path 64 "data.txt" "150" "1" none (by decide) (by decide)).trans
      (by decide),
    (output_path_of_long_path 64 "data.txt" "150.50" "1" none (by decide) (by decide)).trans
      (by decide)⟩

/-- Claim C9: when the number of tokens of the input is a multiple of three, the written
lines are, in order, lines of some of the triplets of the input: the sequence of written
texts is a sublist of the sequence of the texts of the triplets, where the text of a
triplet is its three tokens as they are, a single space between them and one newline at
the end. -/
theorem written_sublist_of_triplets (w : Nat) (argv1 argv2 argv3 : String)
    (file : Option String) (h : 3 ∣ (openInput file).toks.length) :
    ((main w argv1 argv2 argv3 file).written).Sublist
        (List.map (fun r : Record => r.1 ++ " " ++ r.2.1 ++ " " ++ r.2.2 ++ "\n")
          (triplets (openInput file).toks)) := by
  cases h2 : stod argv2 with
  | none => simp [main_unparsed w argv1 argv2 argv3 file (Or.inl h2)]
  | some specifiedMass =>
    cases h3 : stod argv3 with
    | none => simp [main_unparsed w argv1 argv2 argv3 file (Or.inr h3)]
    | some massWindow =>
      rw [main_parsed w argv1 argv2 argv3 file specifiedMass massWindow h2 h3]
      cases file with
      | none => simp [openInput, loop_failed]
      | some contents =>
        simp only [openInput] at h ⊢
        have hl := loop_flatten (specifiedMass - massWindow) (specifiedMass + massWindow)
          (triplets (tokens contents)) ((tokens contents).length + 1) "" "" "" []
        rw [flatten_triplets _ h] at hl
        rw [hl (Nat.lt_succ_self _)]
        simp only [List.nil_append]
        exact (scan_sublist _ _ _).trans ((examined_sublist _).map formatLine)

/-- Witness of claim C9: the example file, nine tokens. -/
theorem written_sublist_of_triplets_witness :
    3 ∣ (openInput (some "100.0 a b\n150.2 c d\n151.0 e f\n")).toks.length ∧
      ((main 64 "data.txt" "150" "1"
          (some "100.0 a b\n150.2 c d\n151.0 e f\n")).written).Sublist
        (List.map (fun r : Record => r.1 ++ " " ++ r.2.1 ++ " " ++ r.2.2 ++ "\n")
          (triplets (openInput (some "100.0 a b\n150.2 c d\n151.0 e f\n")).toks)) :=
  ⟨by decide, written_sublist_of_triplets 64 "data.txt" "150" "1"
    (some "100.0 a b\n150.2 c d\n151.0 e f\n") (by decide)⟩

/-- Claim C10, evaluated on the code: in the input `abc x y`, `150.2 c d` the mass token
of the first record is rejected by `std::stod` and no record before it has a mass above
`maxMass`; the run ends normally and writes the second record: the malformed record is
extracted by the loop condition and replaced before `std::stod` is called. -/
theorem double_read_skips_malformed_record :
    (openInput (some "abc x y\n150.2 c d\n")).toks
        = flatten [("abc", "x", "y"), ("150.2", "c", "d")] ∧
      stod "abc" = none ∧
      (main 64 "data.txt" "150" "1" (some "abc x y\n150.2 c d\n")).status = Status.success ∧
      (main 64 "data.txt" "150" "1" (some "abc x y\n150.2 c d\n")).written
        = ["150.2 c d\n"] := by
  decide!

/-! ## Inputs without tokens, and the dependence on the tokens only -/

/-- On a stream with no token left the first pass of the loop ends it. -/
theorem loop_no_tokens (minMass maxMass : ℚ) (fuel : Nat) (s : IStream)
    (l1 l2 l3 : String) (out : List String) (h : s.toks = []) :
    loop minMass maxMass (fuel + 1) s l1 l2 l3 out = (out, Status.success) := by
  obtain ⟨toks, fb⟩ := s
  simp only at h
  subst h
  cases fb
  · exact loop_cond_failed _ _ _ _ _ _ _ _ (by simp [read3_nil])
  · exact loop_failed _ _ _ _ _ _ _ _

/-- Two files with the same tokens are read as the same stream, unless both are without
tokens. -/
theorem openInput_eq_of_toks (file1 file2 : Option String)
    (h : (openInput file1).toks = (openInput file2).toks) :
    openInput file1 = openInput file2 ∨
      ((openInput file1).toks = [] ∧ (openInput file2).toks = []) := by
  cases file1 with
  | none =>
    right
    exact ⟨rfl, by rw [← h]; rfl⟩
  | some c1 =>
    cases file2 with
    | none =>
      right
      exact ⟨by rw [h]; rfl, rfl⟩
    | some c2 =>
      left
      simp only [openInput] at h ⊢
      rw [h]

/-- Claim C11: when the input yields no token (a file that cannot be opened, an empty
file, a file of white space) and the target mass and the tolerance are numbers, the run
returns normally and has written no record. -/
theorem no_tokens_run (w : Nat) (argv1 argv2 argv3 : String) (file : Option String)
    (specifiedMass massWindow : ℚ) (h2 : stod argv2 = some specifiedMass)
    (h3 : stod argv3 = some massWindow) (h : (openInput file).toks = []) :
    (main w argv1 argv2 argv3 file).written = [] ∧
      (main w argv1 argv2 argv3 file).status = Status.success := by
  rw [main_parsed w argv1 argv2 argv3 file specifiedMass massWindow h2 h3]
  rw [loop_no_tokens _ _ _ _ _ _ _ _ h]
  exact ⟨rfl, rfl⟩

/-- Witness of claim C11: a missing file; an empty file and a file of white space behave
the same. -/
theorem no_tokens_run_witness :
    (stod "150" = some 150 ∧ stod "1" = some 1 ∧ (openInput none).toks = []) ∧
      ((main 64 "data.txt" "150" "1" none).written = [] ∧
        (main 64 "data.txt" "150" "1" none).status = Status.success) ∧
      main 64 "data.txt" "150" "1" (some "") = main 64 "data.txt" "150" "1" none ∧
      main 64 "data.txt" "150" "1" (some " \n\t\n") = main 64 "data.txt" "150" "1" none :=
  ⟨by decide!, no_tokens_run 64 "data.txt" "150" "1" none 150 1 (by decide!) (by decide!)
    (by decide), by decide!, by decide!⟩

/-- Claim C13: when the target mass and the tolerance are numbers and the tolerance is not
negative, the bounds `minMass` and `maxMass` that `main` computes (lines 32 and 34) and
runs the loop with satisfy `minMass <= target <= maxMass`. -/
theorem window_bounds (w : Nat) (argv1 argv2 argv3 : String) (file : Option String)
    (specifiedMass massWindow : ℚ) (h2 : stod argv2 = some specifiedMass)
    (h3 : stod argv3 = some massWindow) (h0 : 0 ≤ massWindow) :
    ∃ minMass maxMass : ℚ,
      minMass = specifiedMass - massWindow ∧ maxMass = specifiedMass + massWindow ∧
      main w argv1 argv2 argv3 file =
        ⟨outputFileName w argv1 argv2,
          (loop minMass maxMass ((openInput file).toks.length + 1)
            (openInput file) "" "" "" []).1,
          (loop minMass maxMass ((openInput file).toks.length + 1)
            (openInput file) "" "" "" []).2⟩ ∧
      minMass ≤ specifiedMass ∧ specifiedMass ≤ maxMass :=
  ⟨specifiedMass - massWindow, specifiedMass + massWindow, rfl, rfl,
    main_parsed w argv1 argv2 argv3 file specifiedMass massWindow h2 h3,
    by linarith, by linarith⟩

/-- Witness of claim C13: target `150`, tolerance `1`, the example file. -/
theorem window_bounds_witness :
    (stod "150" = some 150 ∧ stod "1" = some 1 ∧ (0 : ℚ) ≤ 1) ∧
      ∃ minMass maxMass : ℚ,
        minMass = 150 - 1 ∧ maxMass = 150 + 1 ∧
        main 64 "data.txt" "150" "1" (some "100.0 a b\n150.2 c d\n151.0 e f\n") =
          ⟨outputFileName 64 "data.txt" "150",
            (loop minMass maxMass
              ((openInput (some "100.0 a b\n150.2 c d\n151.0 e f\n")).toks.length + 1)
              (openInput (some "100.0 a b\n150.2 c d\n151.0 e f\n")) "" "" "" []).1,
            (loop minMass maxMass
              ((openInput (some "100.0 a b\n150.2 c d\n151.0 e f\n")).toks.length + 1)
              (openInput (some "100.0 a b\n150.2 c d\n151.0 e f\n")) "" "" "" []).2⟩ ∧
        minMass ≤ 150 ∧ 150 ≤ maxMass :=
  ⟨by decide!, window_bounds 64 "data.txt" "150" "1"
    (some "100.0 a b\n150.2 c d\n151.0 e f\n") 150 1 (by decide!) (by decide!) (by decide!)⟩

/-! ## The two copies -/

/-- The loops of the two copies compute the same function. -/
theorem copies_loop_eq (minMass maxMass : ℚ) :
    ∀ (fuel : Nat) (s : IStream) (l1 l2 l3 : String) (out : List String),
      CcsCalInput.loop minMass maxMass fuel s l1 l2 l3 out
        = PreProcessTxt.loop minMass maxMass fuel s l1 l2 l3 out := by
  intro fuel
  induction fuel with
  | zero => intro s l1 l2 l3 out; rfl
  | succ fuel ih =>
    intro s l1 l2 l3 out
    rw [CcsCalInput.loop, PreProcessTxt.loop]
    simp only [ih]

/-- The two copies of `main` compute the same function. -/
theorem copies_main_eq (w : Nat) (argv1 argv2 argv3 : String) (file : Option String) :
    CcsCalInput.main w argv1 argv2 argv3 file = PreProcessTxt.main w argv1 argv2 argv3 file := by
  simp only [CcsCalInput.main, PreProcessTxt.main, copies_loop_eq]

/-! ## The examined records, in words -/

theorem evenPositioned_cons_cons (r1 r2 : Record) (rest : List Record) :
    evenPositioned (r1 :: r2 :: rest) = r2 :: evenPositioned rest := by
  have hlen : (r1 :: r2 :: rest).length / 2 = rest.length / 2 + 1 := by
    simp only [List.length_cons]
    omega
  simp only [evenPositioned]
  rw [hlen, List.range_succ_eq_map, List.filterMap_cons, List.filterMap_map]
  have hf : ((fun k => (r1 :: r2 :: rest)[2 * k + 1]?) ∘ Nat.succ)
      = fun k => rest[2 * k + 1]? := by
    funext k
    show (r1 :: r2 :: rest)[2 * (k + 1) + 1]? = rest[2 * k + 1]?
    rw [show 2 * (k + 1) + 1 = (2 * k + 1) + 1 + 1 by omega, List.getElem?_cons_succ,
      List.getElem?_cons_succ]
  rw [hf]
  simp

theorem examined_eq_specExamined (rs : List Record) : examined rs = specExamined rs := by
  induction rs using examined.induct with
  | case1 => simp [examined, specExamined, evenPositioned]
  | case2 r => simp [examined, specExamined, evenPositioned]
  | case3 r1 r2 rest ih =>
    simp only [examined, ih, specExamined, evenPositioned_cons_cons, List.cons_append,
      List.length_cons]
    congr 2
    by_cases h : rest.length % 2 = 1
    · have h2 : (rest.length + 1 + 1) % 2 = 1 := by omega
      rw [if_pos h, if_pos h2]
      match rest, h with
      | c :: l, _ => simp [List.getLast?_cons_cons]
    · have h2 : ¬ (rest.length + 1 + 1) % 2 = 1 := by omega
      rw [if_neg h, if_neg h2]

/-! ## Widening the window -/

/-- Claim C14, refuted as stated: on the input `150.2 c d`, `150.5 e f` each of the two
copies drops the first record, so each of them reads a triplet twice per pass of the loop,
and there is no input at all on which the two copies write different outputs. -/
theorem copies_never_differ :
    (PreProcessTxt.main 64 "data.txt" "150" "1" (some "150.2 c d\n150.5 e f\n")).written
        = ["150.5 e f\n"] ∧
      (CcsCalInput.main 64 "data.txt" "150" "1" (some "150.2 c d\n150.5 e f\n")).written
        = ["150.5 e f\n"] ∧
      ¬ ∃ (w : Nat) (argv1 argv2 argv3 : String) (file : Option String),
          (CcsCalInput.main w argv1 argv2 argv3 file).written
            ≠ (PreProcessTxt.main w argv1 argv2 argv3 file).written := by
  refine ⟨by decide!, by decide!, ?_⟩
  rintro ⟨w, argv1, argv2, argv3, file, h⟩
  exact h (by rw [copies_main_eq])

/-- Claim C14 as amended: the two copies of the program behave the same: for every width
of `size_t`, every three arguments and every input, the copy under `CcsCal/input/` and the
copy at the top of the repository give the same output path, write the same texts and end
the same way. -/
theorem copies_agree (w : Nat) (argv1 argv2 argv3 : String) (file : Option String) :
    CcsCalInput.main w argv1 argv2 argv3 file
      = PreProcessTxt.main w argv1 argv2 argv3 file := by
  simp only [CcsCalInput.main, PreProcessTxt.main, copies_loop_eq]

/-- The count that line 22 passes to `substr`, once clipped to the length of the path:
the length minus 4 for a path of at least 4 characters, the whole length for a shorter
one. -/
theorem substr_count (w len : Nat) (hw : len < 2 ^ w) (h2 : 2 ≤ w) :
    min ((len + 2 ^ w - 4) % 2 ^ w) len = if 4 ≤ len then len - 4 else len := by
  have h4 : 4 ≤ 2 ^ w := by
    calc 4 = 2 ^ 2 := by norm_num
      _ ≤ 2 ^ w := Nat.pow_le_pow_right (by norm_num) h2
  by_cases h : 4 ≤ len
  · have e : len + 2 ^ w - 4 = (len - 4) + 2 ^ w := by omega
    rw [if_pos h, e, Nat.add_mod_right, Nat.mod_eq_of_lt (by omega)]
    exact Nat.min_eq_left (Nat.sub_le _ _)
  · rw [if_neg h, Nat.mod_eq_of_lt (by omega)]
    exact Nat.min_eq_right (by omega)

/-- Claim C17: for every input path (of a length that `size_t` holds, `size_t` having at
least 2 bits) and every target-mass argument, the output path is strictly longer than the
input path, so it is another string: the output stream is not opened on the input path. -/
theorem output_path_differs (w : Nat) (argv1 argv2 argv3 : String) (file : Option String)
    (hw : argv1.length < 2 ^ w) (h2 : 2 ≤ w) :
    ∃ name, (main w argv1 argv2 argv3 file).outputFileName = some name ∧
      argv1.length < name.length ∧ name ≠ argv1 := by
  rw [main_outputFileName, outputFileName_eq]
  refine ⟨_, rfl, ?_⟩
  have hlen : argv1.length <
      (String.mk (argv1.data.take
        (min ((argv1.length + 2 ^ w - 4) % 2 ^ w) argv1.length))
        ++ ".pp-" ++ argv2 ++ ".txt").length := by
    have hdata : argv1.data.length = argv1.length := rfl
    have hpp : ".pp-".length = 4 := rfl
    have htxt : ".txt".length = 4 := rfl
    rw [substr_count w argv1.length hw h2]
    simp only [String.length_append, String.length_mk, List.length_take, hdata, hpp, htxt]
    split <;> omega
  exact ⟨hlen, fun he => by rw [he] at hlen; exact Nat.lt_irrefl _ hlen⟩

/-- Witness of claim C17: `data.txt` with target `150`, and the empty path with an empty
target-mass argument. -/
theorem output_path_differs_witness :
    ("data.txt".length < 2 ^ 64 ∧ 2 ≤ 64) ∧
      (∃ name, (main 64 "data.txt" "150" "1" none).outputFileName = some name ∧
        "data.txt".length < name.length ∧ name ≠ "data.txt") ∧
      (main 64 "" "" "1" none).outputFileName = some ".pp-.txt" :=
  ⟨by decide, output_path_differs 64 "data.txt" "150" "1" none (by decide) (by decide),
    by decide⟩

/-- Claim C19: for an input path of fewer than 4 characters (`size_t` having `w >= 2`
bits), the subtraction `length() - 4` wraps around to `2 ^ w - 4 + length()`, `substr`
throws nothing and returns the whole path, and the output path is the whole input path
followed by `.pp-`, the target-mass argument and `.txt`. -/
theorem output_path_of_short_path (w : Nat) (argv1 argv2 argv3 : String)
    (file : Option String) (h : argv1.length < 4) (h2 : 2 ≤ w) :
    (argv1.length + 2 ^ w - 4) % 2 ^ w = 2 ^ w - 4 + argv1.length ∧
      substr argv1 0 ((argv1.length + 2 ^ w - 4) % 2 ^ w) = some argv1 ∧
      (main w argv1 argv2 argv3 file).outputFileName
        = some (argv1 ++ ".pp-" ++ argv2 ++ ".txt") := by
  have h4 : 4 ≤ 2 ^ w := by
    calc 4 = 2 ^ 2 := by norm_num
      _ ≤ 2 ^ w := Nat.pow_le_pow_right (by norm_num) h2
  have hcount := substr_count w argv1.length (by omega) h2
  rw [if_neg (by omega)] at hcount
  have hdata : argv1.data.length = argv1.length := rfl
  refine ⟨?_, ?_, ?_⟩
  · rw [Nat.mod_eq_of_lt (by omega)]
    omega
  · simp only [substr, Nat.not_lt_zero, if_false, List.drop_zero, Nat.sub_zero, hcount]
    rw [← hdata, List.take_length]
  · rw [main_outputFileName, outputFileName_eq, hcount, ← hdata, List.take_length]

/-- Witness of claim C19: the path `abc` gives `abc.pp-150.txt`. -/
theorem output_path_of_short_path_witness :
    ("abc".length < 4 ∧ 2 ≤ 64) ∧
      ((("abc".length + 2 ^ 64 - 4) % 2 ^ 64 = 2 ^ 64 - 4 + "abc".length ∧
        substr "abc" 0 (("abc".length + 2 ^ 64 - 4) % 2 ^ 64) = some "abc" ∧
        (main 64 "abc" "150" "1" none).outputFileName
          = some ("abc" ++ ".pp-" ++ "150" ++ ".txt")) ∧
      (main 64 "abc" "150" "1" none).outputFileName = some "abc.pp-150.txt") :=
  ⟨by decide, output_path_of_short_path 64 "abc" "150" "1" none (by decide) (by decide),
    by decide⟩

/-! ## The loop over a floating-point environment: unfolding -/

theorem fp_loop_failed (E : Fp.Env) (minMass maxMass : E.D) (fuel : Nat)
    (toks : List String) (l1 l2 l3 : String) (out : List String) :
    Fp.loop E minMass maxMass (fuel + 1) ⟨toks, true⟩ l1 l2 l3 out = (out, Status.success) := by
  simp [Fp.loop, read3_failed]

/-- A pass whose condition fails ends the loop with what was written before. -/
theorem fp_loop_cond_failed (E : Fp.Env) (minMass maxMass : E.D) (fuel : Nat) (s : IStream)
    (l1 l2 l3 : String) (out : List String) (h : (read3 s l1 l2 l3).1.failbit = true) :
    Fp.loop E minMass maxMass (fuel + 1) s l1 l2 l3 out = (out, Status.success) := by
  rw [Fp.loop]
  simp [h]

/-- What one pass of the loop does once its condition has extracted the triplet `a b c`. -/
theorem fp_loop_three (E : Fp.Env) (minMass maxMass : E.D) (fuel : Nat) (a b c : String)
    (rest : List String) (l1 l2 l3 : String) (out : List String) :
    Fp.loop E minMass maxMass (fuel + 1) ⟨a :: b :: c :: rest, false⟩ l1 l2 l3 out =
      match E.stod (read3 ⟨rest, false⟩ a b c).2.1 with
      | none => (out, Status.aborted)
      | some mass =>
        if E.gt mass maxMass then (out, Status.success)
        else if E.gt mass minMass then
          Fp.loop E minMass maxMass fuel (read3 ⟨rest, false⟩ a b c).1
            (read3 ⟨rest, false⟩ a b c).2.1 (read3 ⟨rest, false⟩ a b c).2.2.1
            (read3 ⟨rest, false⟩ a b c).2.2.2
            (out ++ [formatLine ((read3 ⟨rest, false⟩ a b c).2.1,
              (read3 ⟨rest, false⟩ a b c).2.2.1, (read3 ⟨rest, false⟩ a b c).2.2.2)])
        else
          Fp.loop E minMass maxMass fuel (read3 ⟨rest, false⟩ a b c).1
            (read3 ⟨rest, false⟩ a b c).2.1 (read3 ⟨rest, false⟩ a b c).2.2.1
            (read3 ⟨rest, false⟩ a b c).2.2.2 out := by
  rw [Fp.loop]
  simp only [read3_three, formatLine]
  rfl

/-- On a stream with no token left the first pass of the loop ends it. -/
theorem fp_loop_no_tokens (E : Fp.Env) (minMass maxMass : E.D) (fuel : Nat) (s : IStream)
    (l1 l2 l3 : String) (out : List String) (h : s.toks = []) :
    Fp.loop E minMass maxMass (fuel + 1) s l1 l2 l3 out = (out, Status.success) := by
  obtain ⟨toks, fb⟩ := s
  simp only at h
  subst h
  cases fb
  · exact fp_loop_cond_failed _ _ _ _ _ _ _ _ _ (by simp [read3_nil])
  · exact fp_loop_failed _ _ _ _ _ _ _ _ _

/-- A run whose two numeric arguments are converted: the loop is run over the opened
input, with the difference and the sum as bounds. -/
theorem fp_main_parsed (E : Fp.Env) (w : Nat) (argv1 argv2 argv3 : String)
    (file : Option String) (specifiedMass massWindow : E.D)
    (h2 : E.stod argv2 = some specifiedMass) (h3 : E.stod argv3 = some massWindow) :
    Fp.main E w argv1 argv2 argv3 file =
      ⟨outputFileName w argv1 argv2,
        (Fp.loop E (E.sub specifiedMass massWindow) (E.add specifiedMass massWindow)
          ((openInput file).toks.length + 1) (openInput file) "" "" "" []).1,
        (Fp.loop E (E.sub specifiedMass massWindow) (E.add specifiedMass massWindow)
          ((openInput file).toks.length + 1) (openInput file) "" "" "" []).2⟩ := by
  simp [Fp.main, outputFileName_eq, h2, h3]

/-- A run in which `std::stod` throws on the target mass or on the mass window writes
nothing. -/
theorem fp_main_unparsed (E : Fp.Env) (w : Nat) (argv1 argv2 argv3 : String)
    (file : Option String) (h : E.stod argv2 = none ∨ E.stod argv3 = none) :
    Fp.main E w argv1 argv2 argv3 file = ⟨outputFileName w argv1 argv2, [], Status.aborted⟩ := by
  rcases h with h | h
  · simp [Fp.main, outputFileName_eq, h]
  · cases h2 : E.stod argv2 <;> simp [Fp.main, outputFileName_eq, h, h2]

/-- The programs over exact arithmetic are the program over the environment `exactEnv`. -/
theorem fp_loop_exact (minMass maxMass : ℚ) :
    ∀ (fuel : Nat) (s : IStream) (l1 l2 l3 : String) (out : List String),
      Fp.loop exactEnv minMass maxMass fuel s l1 l2 l3 out
        = loop minMass maxMass fuel s l1 l2 l3 out := by
  intro fuel
  induction fuel with
  | zero => intro s l1 l2 l3 out; rfl
  | succ fuel ih =>
    intro s l1 l2 l3 out
    cases hc : (read3 s l1 l2 l3).1.failbit with
    | true =>
      rw [fp_loop_cond_failed _ _ _ _ _ _ _ _ _ hc, loop_cond_failed _ _ _ _ _ _ _ _ hc]
    | false =>
      obtain ⟨a, b, c, rest, hs, -⟩ := read3_good s l1 l2 l3 hc
      subst hs
      rw [fp_loop_three, loop_three]
      have hstod : exactEnv.stod = stod := rfl
      rw [hstod]
      cases hm : stod (read3 ⟨rest, false⟩ a b c).2.1 with
      | none => rfl
      | some mass =>
        have hgt : ∀ x y : ℚ, exactEnv.gt x y = decide (x > y) := fun _ _ => rfl
        simp only [hgt, decide_eq_true_eq, ih]

theorem fp_main_exact (w : Nat) (argv1 argv2 argv3 : String) (file : Option String) :
    Fp.main exactEnv w argv1 argv2 argv3 file = main w argv1 argv2 argv3 file := by
  cases h2 : stod argv2 with
  | none =>
    rw [main_unparsed w argv1 argv2 argv3 file (Or.inl h2),
      fp_main_unparsed exactEnv w argv1 argv2 argv3 file (Or.inl h2)]
  | some specifiedMass =>
    cases h3 : stod argv3 with
    | none =>
      rw [main_unparsed w argv1 argv2 argv3 file (Or.inr h3),
        fp_main_unparsed exactEnv w argv1 argv2 argv3 file (Or.inr h3)]
    | some massWindow =>
      rw [main_parsed w argv1 argv2 argv3 file specifiedMass massWindow h2 h3,
        fp_main_parsed exactEnv w argv1 argv2 argv3 file specifiedMass massWindow h2 h3,
        ← fp_loop_exact]
      rfl

/-! ## Over a floating-point environment: termination -/

/-- With more fuel than tokens the loop ends by itself, never for lack of fuel. -/
theorem fp_loop_status (E : Fp.Env) (minMass maxMass : E.D) :
    ∀ (fuel : Nat) (s : IStream) (l1 l2 l3 : String) (out : List String),
      s.toks.length < fuel →
        (Fp.loop E minMass maxMass fuel s l1 l2 l3 out).2 ≠ Status.outOfFuel := by
  intro fuel
  induction fuel with
  | zero => intro s l1 l2 l3 out h; omega
  | succ fuel ih =>
    intro s l1 l2 l3 out hf
    cases hc : (read3 s l1 l2 l3).1.failbit with
    | true =>
      rw [fp_loop_cond_failed E minMass maxMass fuel s l1 l2 l3 out hc]
      simp
    | false =>
      obtain ⟨a, b, c, rest, hs, -⟩ := read3_good s l1 l2 l3 hc
      subst hs
      have hlen := read3_toks_length ⟨rest, false⟩ a b c
      simp only [List.length_cons] at hf hlen
      have hf2 : (read3 ⟨rest, false⟩ a b c).1.toks.length < fuel := by
        omega
      rw [fp_loop_three]
      cases hm : E.stod (read3 ⟨rest, false⟩ a b c).2.1 with
      | none => simp
      | some mass =>
        simp only
        cases hmax : E.gt mass maxMass with
        | true => simp
        | false =>
          cases hmin : E.gt mass minMass with
          | true =>
            simp only [if_true, Bool.false_eq_true, if_false]
            exact ih _ _ _ _ _ hf2
          | false =>
            simp only [Bool.false_eq_true, if_false]
            exact ih _ _ _ _ _ hf2

/-- A run of the program never ends for lack of fuel: the loop is total on every input. -/
theorem fp_main_status (E : Fp.Env) (w : Nat) (argv1 argv2 argv3 : String)
    (file : Option String) :
    (Fp.main E w argv1 argv2 argv3 file).status ≠ Status.outOfFuel := by
  cases h2 : E.stod argv2 with
  | none => simp [fp_main_unparsed E w argv1 argv2 argv3 file (Or.inl h2)]
  | some specifiedMass =>
    cases h3 : E.stod argv3 with
    | none => simp [fp_main_unparsed E w argv1 argv2 argv3 file (Or.inr h3)]
    | some massWindow =>
      rw [fp_main_parsed E w argv1 argv2 argv3 file specifiedMass massWindow h2 h3]
      exact fp_loop_status _ _ _ _ _ _ _ _ _ (Nat.lt_succ_self _)

/-! ## Over a floating-point environment: the tests passed by a written line -/

/-- Every line that the loop adds is the text of three strings of which the first is a
token of the input that `std::stod` converts to a value above `minMass` and not above
`maxMass`, by the comparison of the environment. -/
theorem fp_loop_written (E : Fp.Env) (minMass maxMass : E.D) :
    ∀ (fuel : Nat) (s : IStream) (l1 l2 l3 : String) (out : List String) (line : String),
      line ∈ (Fp.loop E minMass maxMass fuel s l1 l2 l3 out).1 →
        line ∈ out ∨ ∃ t1 t2 t3 mass, t1 ∈ s.toks ∧
          line = t1 ++ " " ++ t2 ++ " " ++ t3 ++ "\n" ∧ E.stod t1 = some mass ∧
          E.gt mass minMass = true ∧ E.gt mass maxMass = false := by
  intro fuel
  induction fuel with
  | zero =>
    intro s l1 l2 l3 out line h
    exact Or.inl (by simpa [Fp.loop] using h)
  | succ fuel ih =>
    intro s l1 l2 l3 out line h
    cases hc : (read3 s l1 l2 l3).1.failbit with
    | true =>
      rw [fp_loop_cond_failed E minMass maxMass fuel s l1 l2 l3 out hc] at h
      exact Or.inl h
    | false =>
      obtain ⟨a, b, c, rest, hs, -⟩ := read3_good s l1 l2 l3 hc
      subst hs
      rw [fp_loop_three] at h
      obtain ⟨hfirst, hleft⟩ := read3_any ⟨rest, false⟩ a b c
      have hmem : (read3 ⟨rest, false⟩ a b c).2.1 ∈ a :: b :: c :: rest := by
        rcases hfirst with h1 | h1
        · rw [h1]; exact List.mem_cons_self _ _
        · exact List.mem_cons_of_mem _ (List.mem_cons_of_mem _ (List.mem_cons_of_mem _ h1))
      have hsub : ∀ t, t ∈ (read3 ⟨rest, false⟩ a b c).1.toks → t ∈ a :: b :: c :: rest :=
        fun t ht =>
          List.mem_cons_of_mem _ (List.mem_cons_of_mem _ (List.mem_cons_of_mem _ (hleft t ht)))
      cases hm : E.stod (read3 ⟨rest, false⟩ a b c).2.1 with
      | none =>
        rw [hm] at h
        exact Or.inl h
      | some mass =>
        rw [hm] at h
        simp only at h
        cases hmax : E.gt mass maxMass with
        | true =>
          rw [hmax, if_pos rfl] at h
          exact Or.inl h
        | false =>
          rw [hmax, if_neg (by simp)] at h
          cases hmin : E.gt mass minMass with
          | true =>
            rw [hmin, if_pos rfl] at h
            rcases ih _ _ _ _ _ _ h with h1 | ⟨t1, t2, t3, m, ht, hl, hs, hlo, hhi⟩
            · rcases List.mem_append.mp h1 with h2 | h2
              · exact Or.inl h2
              · right
                rw [List.mem_singleton] at h2
                exact ⟨_, _, _, mass, hmem, h2, hm, hmin, hmax⟩
            · exact Or.inr ⟨t1, t2, t3, m, hsub t1 ht, hl, hs, hlo, hhi⟩
          | false =>
            rw [hmin, if_neg (by simp)] at h
            rcases ih _ _ _ _ _ _ h with h1 | ⟨t1, t2, t3, m, ht, hl, hs, hlo, hhi⟩
            · exact Or.inl h1
            · exact Or.inr ⟨t1, t2, t3, m, hsub t1 ht, hl, hs, hlo, hhi⟩

/-! ## Over a floating-point environment: inputs of complete triplets -/

/-- On an input made of the complete triplets `rs`, the loop writes what the tests of its
body give on the examined records, and ends the same way; any `fuel` above the number of
tokens is enough. -/
theorem fp_loop_flatten (E : Fp.Env) (minMass maxMass : E.D) (rs : List Record) :
    ∀ (fuel : Nat) (l1 l2 l3 : String) (out : List String),
      (flatten rs).length < fuel →
        Fp.loop E minMass maxMass fuel ⟨flatten rs, false⟩ l1 l2 l3 out =
          (out ++ (Fp.scan E minMass maxMass (examined rs)).1,
            (Fp.scan E minMass maxMass (examined rs)).2) := by
  induction rs using examined.induct with
  | case1 =>
    intro fuel l1 l2 l3 out hf
    obtain ⟨f, rfl⟩ : ∃ f, fuel = f + 1 := ⟨fuel - 1, by omega⟩
    rw [fp_loop_cond_failed _ _ _ _ _ _ _ _ _ (by simp [flatten, read3_nil])]
    simp [examined, Fp.scan]
  | case2 r =>
    intro fuel l1 l2 l3 out hf
    obtain ⟨a, b, c⟩ := r
    simp only [flatten, List.length_cons, List.length_nil] at hf
    obtain ⟨f, rfl⟩ : ∃ f, fuel = f + 2 := ⟨fuel - 2, by omega⟩
    simp only [flatten, examined, Fp.scan]
    rw [fp_loop_three, read3_nil]
    cases hm : E.stod a with
    | none => simp
    | some mass =>
      simp only
      cases hmax : E.gt mass maxMass with
      | true => simp
      | false =>
        cases hmin : E.gt mass minMass with
        | true => simp [fp_loop_failed]
        | false => simp [fp_loop_failed]
  | case3 r1 r2 rest ih =>
    intro fuel l1 l2 l3 out hf
    obtain ⟨a, b, c⟩ := r1
    obtain ⟨d, e, g⟩ := r2
    simp only [flatten, List.length_cons] at hf
    obtain ⟨f, rfl⟩ : ∃ f, fuel = f + 1 := ⟨fuel - 1, by omega⟩
    have hf2 : (flatten rest).length < f := by omega
    simp only [flatten, examined, Fp.scan]
    rw [fp_loop_three, read3_three]
    cases hm : E.stod d with
    | none => simp
    | some mass =>
      simp only
      cases hmax : E.gt mass maxMass with
      | true => simp
      | false =>
        cases hmin : E.gt mass minMass with
        | true => simp [ih f d e g _ hf2]
        | false => simp [ih f d e g _ hf2]

/-- The lines that the tests of the loop body write, in words. -/
theorem fp_scan_written (E : Fp.Env) (minMass maxMass : E.D) (xs : List Record) :
    (Fp.scan E minMass maxMass xs).1 =
      ((xs.takeWhile (Fp.goesOn E maxMass)).filter (Fp.massAbove E minMass)).map
        formatLine := by
  induction xs with
  | nil => simp [Fp.scan]
  | cons r xs ih =>
    simp only [Fp.scan]
    cases hm : E.stod r.1 with
    | none =>
      have h1 : Fp.goesOn E maxMass r = false := by simp [Fp.goesOn, hm]
      simp [List.takeWhile_cons, h1]
    | some mass =>
      simp only
      cases hmax : E.gt mass maxMass with
      | true =>
        have h1 : Fp.goesOn E maxMass r = false := by simp [Fp.goesOn, hm, hmax]
        simp [List.takeWhile_cons, h1]
      | false =>
        have h1 : Fp.goesOn E maxMass r = true := by simp [Fp.goesOn, hm, hmax]
        cases hmin : E.gt mass minMass with
        | true =>
          have h2 : Fp.massAbove E minMass r = true := by simp [Fp.massAbove, hm, hmin]
          simp [List.takeWhile_cons, h1, h2, ih]
        | false =>
          have h2 : Fp.massAbove E minMass r = false := by simp [Fp.massAbove, hm, hmin]
          simp [List.takeWhile_cons, h1, h2, ih]

/-- The way the tests of the loop body end the scan, in words. -/
theorem fp_scan_status (E : Fp.Env) (minMass maxMass : E.D) (xs : List Record) :
    (Fp.scan E minMass maxMass xs).2 =
      match xs.dropWhile (Fp.goesOn E maxMass) with
      | [] => Status.success
      | r :: _ => if (E.stod r.1).isSome then Status.success else Status.aborted := by
  induction xs with
  | nil => simp [Fp.scan]
  | cons r xs ih =>
    simp only [Fp.scan]
    cases hm : E.stod r.1 with
    | none =>
      have h1 : Fp.goesOn E maxMass r = false := by simp [Fp.goesOn, hm]
      simp [List.dropWhile_cons, h1, hm]
    | some mass =>
      simp only
      cases hmax : E.gt mass maxMass with
      | true =>
        have h1 : Fp.goesOn E maxMass r = false := by simp [Fp.goesOn, hm, hmax]
        simp [List.dropWhile_cons, h1, hm]
      | false =>
        have h1 : Fp.goesOn E maxMass r = true := by simp [Fp.goesOn, hm, hmax]
        cases hmin : E.gt mass minMass with
        | true => simp [List.dropWhile_cons, h1, ih]
        | false => simp [List.dropWhile_cons, h1, ih]

/-! ## The program on a file system: a second run -/

/-- The output path is strictly longer than the input path, hence another name. -/
theorem outputFileName_ne (w : Nat) (argv1 argv2 : String) (hw : argv1.length < 2 ^ w)
    (h2 : 2 ≤ w) :
    ∃ name, outputFileName w argv1 argv2 = some name ∧ argv1 ≠ name := by
  rw [outputFileName_eq]
  refine ⟨_, rfl, ?_⟩
  have hlen : argv1.length <
      (String.mk (argv1.data.take
        (min ((argv1.length + 2 ^ w - 4) % 2 ^ w) argv1.length))
        ++ ".pp-" ++ argv2 ++ ".txt").length := by
    have hdata : argv1.data.length = argv1.length := rfl
    have hpp : ".pp-".length = 4 := rfl
    have htxt : ".txt".length = 4 := rfl
    rw [substr_count w argv1.length hw h2]
    simp only [String.length_append, String.length_mk, List.length_take, hdata, hpp, htxt]
    split <;> omega
  intro he
  rw [← he] at hlen
  exact Nat.lt_irrefl _ hlen

theorem store_other (fs : Files) (name contents other : String) (h : other ≠ name) :
    store fs name contents other = fs other := by
  simp [store, h]

theorem store_store (fs : Files) (name c1 c2 : String) :
    store (store fs name c1) name c2 = store fs name c2 := by
  funext n
  by_cases h : n = name <;> simp [store, h]

/-- An execution that can open its output file, on another name than the input file:
the output file receives what the run on the contents of the input file leaves. -/
theorem execute_writable (E : Fp.Env) (w : Nat) (writable : String → Bool)
    (reached : List String → Nat) (argv1 argv2 argv3 : String) (fs : Files) (name : String)
    (hname : outputFileName w argv1 argv2 = some name) (hne : argv1 ≠ name)
    (hwr : writable name = true) :
    execute E w writable reached argv1 argv2 argv3 fs =
      store fs name (leftInFile reached (Fp.main E w argv1 argv2 argv3 (fs argv1))) := by
  have hin : (match fs argv1 with
      | none => none
      | some _ => store fs name "" argv1) = fs argv1 := by
    cases h : fs argv1 with
    | none => rfl
    | some c => simp only [store_other fs name "" argv1 hne, h]
  simp only [execute, hname, hwr, if_true, hin]

/-- The output file name of a run is the one line 22 computes from the first two
arguments, however the run ends. -/
theorem fp_main_outputFileName (E : Fp.Env) (w : Nat) (argv1 argv2 argv3 : String)
    (file : Option String) :
    (Fp.main E w argv1 argv2 argv3 file).outputFileName = outputFileName w argv1 argv2 := by
  cases h2 : E.stod argv2 with
  | none => simp [fp_main_unparsed E w argv1 argv2 argv3 file (Or.inl h2)]
  | some specifiedMass =>
    cases h3 : E.stod argv3 with
    | none => simp [fp_main_unparsed E w argv1 argv2 argv3 file (Or.inr h3)]
    | some massWindow =>
      rw [fp_main_parsed E w argv1 argv2 argv3 file specifiedMass massWindow h2 h3]

/-- The result of a run depends on the input file through its tokens only. -/
theorem fp_main_of_toks (E : Fp.Env) (w : Nat) (argv1 argv2 argv3 : String)
    (file1 file2 : Option String) (h : (openInput file1).toks = (openInput file2).toks) :
    Fp.main E w argv1 argv2 argv3 file1 = Fp.main E w argv1 argv2 argv3 file2 := by
  cases h2 : E.stod argv2 with
  | none =>
    rw [fp_main_unparsed E w argv1 argv2 argv3 file1 (Or.inl h2),
      fp_main_unparsed E w argv1 argv2 argv3 file2 (Or.inl h2)]
  | some specifiedMass =>
    cases h3 : E.stod argv3 with
    | none =>
      rw [fp_main_unparsed E w argv1 argv2 argv3 file1 (Or.inr h3),
        fp_main_unparsed E w argv1 argv2 argv3 file2 (Or.inr h3)]
    | some massWindow =>
      rw [fp_main_parsed E w argv1 argv2 argv3 file1 specifiedMass massWindow h2 h3,
        fp_main_parsed E w argv1 argv2 argv3 file2 specifiedMass massWindow h2 h3]
      rcases openInput_eq_of_toks file1 file2 h with he | ⟨h1, h2⟩
      · rw [he]
      · rw [fp_loop_no_tokens _ _ _ _ _ _ _ _ _ h1, fp_loop_no_tokens _ _ _ _ _ _ _ _ _ h2]

/-! ## The claims about the values of type `double` and about repeated runs -/

/-- Claim C2, refuted as stated: in binary64 the run with target `0.3` and tolerance `0.1`
on the input `0.2 c d` writes the line, although the value `0.2` of its mass token is equal
to the exact difference `0.3 - 0.1`, not above it; the run with target `100` and tolerance
`1` on the input `101.00000000000000000001 c d` writes the line, although the value of its
mass token is above the exact sum `100 + 1`; and the run with target `-inf` and tolerance
`inf` on the input `5 c d` writes the line, although `maxMass` is not a number and
`5 <= maxMass` is false. -/
theorem written_mass_outside_exact_window :
    ((Fp.main binary64 64 "data.txt" "0.3" "0.1" (some "0.2 c d\n")).written = ["0.2 c d\n"] ∧
        [stod "0.3", stod "0.1", stod "0.2"] = [some (3 / 10), some (1 / 10), some (1 / 5)] ∧
        ¬ ((3 / 10 : ℚ) - 1 / 10 < 1 / 5)) ∧
      ((Fp.main binary64 64 "data.txt" "100" "1"
          (some "101.00000000000000000001 c d\n")).written
          = ["101.00000000000000000001 c d\n"] ∧
        [stod "100", stod "1", stod "101.00000000000000000001"]
          = [some 100, some 1, some (101 + 1 / 10 ^ 20)] ∧
        ¬ ((101 + 1 / 10 ^ 20 : ℚ) ≤ 100 + 1)) ∧
      ((Fp.main binary64 64 "data.txt" "-inf" "inf" (some "5 c d\n")).written = ["5 c d\n"] ∧
        [binary64.stod "-inf", binary64.stod "inf", binary64.stod "5"]
          = [some (Double.inf true), some (Double.inf false), some (Double.fin 5)] ∧
        binary64.add (Double.inf true) (Double.inf false) = Double.nan ∧
        Double.le (Double.fin 5) Double.nan = false) := by
  decide!

/-- Claim C2 as amended: whatever the floating-point environment, the arguments and the
input are, every line that a run writes is the text of three strings, the first of them a
token of the input that `std::stod` converts to a `double` `mass` for which `mass > minMass`
holds and `mass > maxMass` does not, where `minMass` and `maxMass` are the `double`
difference and sum of the converted target mass and tolerance. -/
theorem written_line_passes_tests (E : Fp.Env) (w : Nat) (argv1 argv2 argv3 : String)
    (file : Option String) (line : String)
    (h : line ∈ (Fp.main E w argv1 argv2 argv3 file).written) :
    ∃ specifiedMass massWindow t1 t2 t3 mass,
      E.stod argv2 = some specifiedMass ∧ E.stod argv3 = some massWindow ∧
      t1 ∈ (openInput file).toks ∧ line = t1 ++ " " ++ t2 ++ " " ++ t3 ++ "\n" ∧
      E.stod t1 = some mass ∧
      E.gt mass (E.sub specifiedMass massWindow) = true ∧
      E.gt mass (E.add specifiedMass massWindow) = false := by
  cases h2 : E.stod argv2 with
  | none => simp [fp_main_unparsed E w argv1 argv2 argv3 file (Or.inl h2)] at h
  | some specifiedMass =>
    cases h3 : E.stod argv3 with
    | none => simp [fp_main_unparsed E w argv1 argv2 argv3 file (Or.inr h3)] at h
    | some massWindow =>
      rw [fp_main_parsed E w argv1 argv2 argv3 file specifiedMass massWindow h2 h3] at h
      rcases fp_loop_written _ _ _ _ _ _ _ _ _ _ h with h1 | h1
      · simp at h1
      · obtain ⟨t1, t2, t3, mass, ht, hl, hm, hlo, hhi⟩ := h1
        exact ⟨specifiedMass, massWindow, t1, t2, t3, mass, rfl, rfl, ht, hl, hm, hlo, hhi⟩

/-- Witness of claim C2 as amended: the line `0.2 c d` written in binary64 with target
`0.3` and tolerance `0.1`. -/
theorem written_line_passes_tests_witness :
    "0.2 c d\n" ∈ (Fp.main binary64 64 "data.txt" "0.3" "0.1" (some "0.2 c d\n")).written ∧
      ∃ specifiedMass massWindow t1 t2 t3 mass,
        binary64.stod "0.3" = some specifiedMass ∧ binary64.stod "0.1" = some massWindow ∧
        t1 ∈ (openInput (some "0.2 c d\n")).toks ∧
        "0.2 c d\n" = t1 ++ " " ++ t2 ++ " " ++ t3 ++ "\n" ∧
        binary64.stod t1 = some mass ∧
        binary64.gt mass (binary64.sub specifiedMass massWindow) = true ∧
        binary64.gt mass (binary64.add specifiedMass massWindow) = false :=
  ⟨by decide!, written_line_passes_tests binary64 64 "data.txt" "0.3" "0.1"
    (some "0.2 c d\n") "0.2 c d\n" (by decide!)⟩

/-- Claim C12: a second run with the same arguments, on the file system that the first run
has left, leaves every file as it is: the output file is opened again under the same name,
emptied and filled with the same bytes, and the input file is not touched (for a path of a
length that `size_t` holds, `size_t` having at least 2 bits). Moreover the result of a run
depends on the input file through its tokens only, and the output path on the first two
arguments only. -/
theorem second_run_changes_nothing (E : Fp.Env) (w : Nat) (writable : String → Bool)
    (reached : List String → Nat) (argv1 argv2 argv3 : String) (fs : Files)
    (hw : argv1.length < 2 ^ w) (h2 : 2 ≤ w) :
    execute E w writable reached argv1 argv2 argv3
        (execute E w writable reached argv1 argv2 argv3 fs)
      = execute E w writable reached argv1 argv2 argv3 fs ∧
    (∀ file1 file2 : Option String, (openInput file1).toks = (openInput file2).toks →
      Fp.main E w argv1 argv2 argv3 file1 = Fp.main E w argv1 argv2 argv3 file2) ∧
    ∀ file : Option String,
      (Fp.main E w argv1 argv2 argv3 file).outputFileName = outputFileName w argv1 argv2 := by
  refine ⟨?_, fun file1 file2 h => fp_main_of_toks E w argv1 argv2 argv3 file1 file2 h,
    fun file => fp_main_outputFileName E w argv1 argv2 argv3 file⟩
  obtain ⟨name, hname, hne⟩ := outputFileName_ne w argv1 argv2 hw h2
  cases hwr : writable name with
  | false =>
    have hid : ∀ fs', execute E w writable reached argv1 argv2 argv3 fs' = fs' := by
      intro fs'
      simp [execute, hname, hwr]
    rw [hid, hid]
  | true =>
    rw [execute_writable E w writable reached argv1 argv2 argv3 fs name hname hne hwr,
      execute_writable E w writable reached argv1 argv2 argv3 _ name hname hne hwr,
      store_other fs name _ argv1 hne, store_store]

/-- Witness of claim C12: the example file in a file system that holds nothing else, in
binary64; the first run leaves the two lines in `data.pp-150.txt`, and so does the
second. -/
theorem second_run_changes_nothing_witness :
    ("data.txt".length < 2 ^ 64 ∧ 2 ≤ 64) ∧
      (execute binary64 64 (fun _ => true) (fun _ => 0) "data.txt" "150" "1"
          (execute binary64 64 (fun _ => true) (fun _ => 0) "data.txt" "150" "1"
            (fun n => if n = "data.txt" then some "100.0 a b\n150.2 c d\n151.0 e f\n" else none))
        = execute binary64 64 (fun _ => true) (fun _ => 0) "data.txt" "150" "1"
            (fun n => if n = "data.txt" then some "100.0 a b\n150.2 c d\n151.0 e f\n" else none) ∧
      (∀ file1 file2 : Option String, (openInput file1).toks = (openInput file2).toks →
        Fp.main binary64 64 "data.txt" "150" "1" file1
          = Fp.main binary64 64 "data.txt" "150" "1" file2) ∧
      ∀ file : Option String,
        (Fp.main binary64 64 "data.txt" "150" "1" file).outputFileName
          = outputFileName 64 "data.txt" "150") ∧
      execute binary64 64 (fun _ => true) (fun _ => 0) "data.txt" "150" "1"
          (fun n => if n = "data.txt" then some "100.0 a b\n150.2 c d\n151.0 e f\n" else none)
          "data.pp-150.txt"
        = some "150.2 c d\n151.0 e f\n" :=
  ⟨by decide, second_run_changes_nothing binary64 64 (fun _ => true) (fun _ => 0)
    "data.txt" "150" "1"
    (fun n => if n = "data.txt" then some "100.0 a b\n150.2 c d\n151.0 e f\n" else none)
    (by decide) (by decide), by decide!⟩

/-- Claim C15: for an input made of the complete triplets `rs` and target mass and
tolerance that `std::stod` converts, in whatever floating-point environment, the run
writes, as lines and in order, the records of the examined sequence (the records at the
even positions counted from 1, then the last record when their number is odd) that precede
the first examined record with `mass > maxMass` and that have `mass > minMass`; an examined
record on whose mass token `std::stod` throws also ends the scan, and then the run aborts.
Records at the other positions have no influence. -/
theorem loop_examines_even_positions (E : Fp.Env) (w : Nat) (argv1 argv2 argv3 : String)
    (file : Option String) (rs : List Record) (specifiedMass massWindow : E.D)
    (h2 : E.stod argv2 = some specifiedMass) (h3 : E.stod argv3 = some massWindow)
    (h : (openInput file).toks = flatten rs) :
    Fp.main E w argv1 argv2 argv3 file =
      ⟨outputFileName w argv1 argv2,
        Fp.specOutput E (E.sub specifiedMass massWindow) (E.add specifiedMass massWindow) rs,
        Fp.specStatus E (E.add specifiedMass massWindow) rs⟩ := by
  rw [fp_main_parsed E w argv1 argv2 argv3 file specifiedMass massWindow h2 h3]
  have hloop : Fp.loop E (E.sub specifiedMass massWindow) (E.add specifiedMass massWindow)
      ((openInput file).toks.length + 1) (openInput file) "" "" "" []
      = (Fp.specOutput E (E.sub specifiedMass massWindow) (E.add specifiedMass massWindow) rs,
          Fp.specStatus E (E.add specifiedMass massWindow) rs) := by
    match rs, h with
    | [], h =>
      rw [fp_loop_no_tokens _ _ _ _ _ _ _ _ _ h]
      simp [Fp.specOutput, Fp.specStatus, specExamined, evenPositioned]
    | r :: rs, h =>
      have hopen := openInput_of_toks file _ h (by simp [flatten])
      rw [hopen]
      rw [fp_loop_flatten _ _ _ (r :: rs) _ "" "" "" [] (Nat.lt_succ_self _)]
      rw [fp_scan_written, fp_scan_status, examined_eq_specExamined]
      simp only [List.nil_append, Fp.specOutput, Fp.specStatus]
  rw [hloop]

/-- Witness of claim C15: five records in binary64, target `150`, tolerance `1`; the
records at the positions 2 and 4 and the last one are examined, and all three are written.
With target `0.7` and tolerance `0.1` the single record `0.8 c d` is examined and ends the
scan: `0.8` is above the `double` sum of `0.7` and `0.1`. -/
theorem loop_examines_even_positions_witness :
    (binary64.stod "150" = some (Double.fin 150) ∧ binary64.stod "1" = some (Double.fin 1) ∧
        (openInput (some "1 a b\n149.5 c d\n3 e f\n150.5 g h\n150.9 i j\n")).toks
          = flatten [("1", "a", "b"), ("149.5", "c", "d"), ("3", "e", "f"),
              ("150.5", "g", "h"), ("150.9", "i", "j")]) ∧
      Fp.main binary64 64 "data.txt" "150" "1"
          (some "1 a b\n149.5 c d\n3 e f\n150.5 g h\n150.9 i j\n") =
        ⟨outputFileName 64 "data.txt" "150",
          Fp.specOutput binary64 (binary64.sub (Double.fin 150) (Double.fin 1))
            (binary64.add (Double.fin 150) (Double.fin 1))
            [("1", "a", "b"), ("149.5", "c", "d"), ("3", "e", "f"),
              ("150.5", "g", "h"), ("150.9", "i", "j")],
          Fp.specStatus binary64 (binary64.add (Double.fin 150) (Double.fin 1))
            [("1", "a", "b"), ("149.5", "c", "d"), ("3", "e", "f"),
              ("150.5", "g", "h"), ("150.9", "i", "j")]⟩ ∧
      (Fp.main binary64 64 "data.txt" "150" "1"
          (some "1 a b\n149.5 c d\n3 e f\n150.5 g h\n150.9 i j\n")).written
        = ["149.5 c d\n", "150.5 g h\n", "150.9 i j\n"] ∧
      Fp.main binary64 64 "data.txt" "0.7" "0.1" (some "0.8 c d\n")
        = ⟨some "data.pp-0.7.txt", [], Status.success⟩ :=
  ⟨by decide!, loop_examines_even_positions binary64 64 "data.txt" "150" "1"
    (some "1 a b\n149.5 c d\n3 e f\n150.5 g h\n150.9 i j\n")
    [("1", "a", "b"), ("149.5", "c", "d"), ("3", "e", "f"),
      ("150.5", "g", "h"), ("150.9", "i", "j")] (Double.fin 150) (Double.fin 1)
    (by decide!) (by decide!) (by decide), by decide!, by decide!⟩

end PreProcessTxt
